import Mathlib

/-!
Verification development for the roulette data-ingestion repository.

The definitions below are a shallow embedding of the pipeline in
`src/scripts/process-roulette-data.ts` together with its companion
variants (`src/app/api/score/route copy.ts`, `src/unnamed/part_000`,
`src/scripts/cleanup-old-roulette-events.js`) and the zod schemas in
`src/app/api/scores/schemas.ts`.  Timestamps are modelled as integers
(seconds since the Unix epoch); JSON numbers are modelled as integers,
which covers every numeric field the pipeline reads (roulette outcome
numbers and rounded multipliers).  Asynchronous fan-out/await-all
stages are modelled by the corresponding sequential fold, which is a
linearisation of a single pipeline invocation.
-/

namespace Roulette

/-- Model of a parsed JSON value (the input of `RouletteEventsArraySchema.parse`).
Numbers are modelled as integers. -/
inductive Json where
  | null
  | bool (b : Bool)
  | num (n : Int)
  | str (s : String)
  | arr (elems : List Json)
  | obj (fields : List (String × Json))

/-- Field lookup on a JSON object, `none` on other shapes or missing keys. -/
def Json.getField : Json → String → Option Json
  | .obj fields, key => (fields.find? (fun p => p.1 == key)).map (fun p => p.2)
  | _, _ => none

/-- Whether a JSON value is an array (the top-level shape the schema requires). -/
def Json.isArray : Json → Bool
  | .arr _ => true
  | _ => false

/-- Gregorian leap-year test. -/
def isLeapYear (y : Int) : Bool :=
  Int.emod y 4 == 0 && (Int.emod y 100 != 0 || Int.emod y 400 == 0)

/-- Number of days of a month (1-12) in year `y`. -/
def daysInMonth (y m : Int) : Int :=
  if m == 2 then (if isLeapYear y then 29 else 28)
  else if m == 4 || m == 6 || m == 9 || m == 11 then 30
  else 31

/-- Days since 1970-01-01 of the civil date `y-m-d` (month 1-12, day 1-based),
standard civil-from-days arithmetic with floor division. -/
def daysFromCivil (y m d : Int) : Int :=
  let ya := if m ≤ 2 then y - 1 else y
  let era := Int.fdiv ya 400
  let yoe := ya - era * 400
  let mp := Int.emod (m + 9) 12
  let doy := Int.fdiv (153 * mp + 2) 5 + d - 1
  let doe := yoe * 365 + Int.fdiv yoe 4 - Int.fdiv yoe 100 + doy
  era * 146097 + doe - 719468

/-- Numeric value of a decimal digit character. -/
def digitVal (c : Char) : Int := (c.toNat : Int) - 48

/-- Tail of an ISO-8601 UTC timestamp after the seconds field: either a bare
`Z` or a dot, at least one fractional digit, and `Z`. -/
def isoFracTail : Nat → List Char → Bool
  | n, ['Z'] => decide (0 < n)
  | n, c :: rest => c.isDigit && isoFracTail (n + 1) rest
  | _, [] => false

/-- Accepted endings of the timestamp string after `hh:mm:ss`. -/
def isoTail : List Char → Bool
  | ['Z'] => true
  | '.' :: rest => isoFracTail 0 rest
  | _ => false

/-- Parse a strict ISO-8601 UTC timestamp `YYYY-MM-DDThh:mm:ss(.fff)Z` to
seconds since the epoch, `none` when malformed or with out-of-range
components (the model of an invalid `Date`).  Fractional seconds are
accepted and truncated. -/
def parseIsoUtc (s : String) : Option Int :=
  match s.data with
  | y1 :: y2 :: y3 :: y4 :: '-' :: m1 :: m2 :: '-' :: d1 :: d2 :: 'T' ::
      h1 :: h2 :: ':' :: n1 :: n2 :: ':' :: s1 :: s2 :: rest =>
    if (y1.isDigit && y2.isDigit && y3.isDigit && y4.isDigit &&
        m1.isDigit && m2.isDigit && d1.isDigit && d2.isDigit &&
        h1.isDigit && h2.isDigit && n1.isDigit && n2.isDigit &&
        s1.isDigit && s2.isDigit && isoTail rest) then
      let y := digitVal y1 * 1000 + digitVal y2 * 100 + digitVal y3 * 10 + digitVal y4
      let mo := digitVal m1 * 10 + digitVal m2
      let d := digitVal d1 * 10 + digitVal d2
      let h := digitVal h1 * 10 + digitVal h2
      let mi := digitVal n1 * 10 + digitVal n2
      let sec := digitVal s1 * 10 + digitVal s2
      if 1 ≤ mo && mo ≤ 12 && 1 ≤ d && d ≤ daysInMonth y mo &&
          h ≤ 23 && mi ≤ 59 && sec ≤ 59 then
        some (daysFromCivil y mo d * 86400 + h * 3600 + mi * 60 + sec)
      else none
    else none
  | _ => none

/-- Model of `new Date(value)` as used by `z.coerce.date`: ISO strings are
parsed, numbers are taken as epoch values; other shapes yield an invalid
date. -/
def coerceDate : Json → Option Int
  | .str s => parseIsoUtc s
  | .num n => some n
  | _ => none

/-- Model of the `outcome` object of `RouletteOutcomeSchema`
(src/app/api/scores/schemas.ts): `number`, `type`, and `color`. -/
structure RouletteOutcome where
  number : Int
  type : String
  color : String
deriving Repr, DecidableEq

/-- One entry of `luckyNumbersList`. -/
structure LuckyNumber where
  number : Int
  roundedMultiplier : Int
deriving Repr, DecidableEq

/-- The `table` object of an event: partition id and display name. -/
structure RouletteTable where
  id : String
  name : String
deriving Repr, DecidableEq

/-- The `result` object of an event. -/
structure RouletteResult where
  outcome : RouletteOutcome
  luckyNumbersList : Option (List LuckyNumber)
deriving Repr, DecidableEq

/-- The inner `data` payload of an event (timestamps already coerced). -/
structure RouletteData where
  id : String
  startedAt : Int
  settledAt : Int
  status : String
  gameType : String
  table : RouletteTable
  result : RouletteResult
deriving Repr, DecidableEq

/-- A validated upstream event: envelope id plus inner data payload. -/
structure RouletteEvent where
  id : String
  data : RouletteData
deriving Repr, DecidableEq

/-- Extract a JSON string, failing like `z.string()` otherwise. -/
def parseString (j : Json) : Except String String :=
  match j with
  | .str s => .ok s
  | _ => .error "Expected string"

/-- Extract a JSON number, failing like `z.number()` otherwise. -/
def parseNumber (j : Json) : Except String Int :=
  match j with
  | .num n => .ok n
  | _ => .error "Expected number"

/-- Look up a required object field. -/
def requireField (j : Json) (key : String) : Except String Json :=
  match j.getField key with
  | some v => .ok v
  | none => .error ("Required field missing: " ++ key)

/-- Model of `z.coerce.date()`: the coerced value must be a valid date. -/
def parseDate (j : Json) : Except String Int :=
  match coerceDate j with
  | some t => .ok t
  | none => .error "Invalid date"

/-- Model of `RouletteOutcomeSchema` (src/app/api/scores/schemas.ts): the
`type` field must be the literal `"Even"` or `"Odd"`, the `color` field the
literal `"Red"`, `"Black"` or `"Green"`; any other value is rejected. -/
def parseOutcome (j : Json) : Except String RouletteOutcome := do
  let number ← parseNumber (← requireField j "number")
  let type ← parseString (← requireField j "type")
  if type == "Even" || type == "Odd" then
    let color ← parseString (← requireField j "color")
    if color == "Red" || color == "Black" || color == "Green" then
      .ok { number := number, type := type, color := color }
    else .error "Invalid literal value for color"
  else .error "Invalid literal value for type"

/-- One entry of `luckyNumbersList`. -/
def parseLuckyNumber (j : Json) : Except String LuckyNumber := do
  let number ← parseNumber (← requireField j "number")
  let roundedMultiplier ← parseNumber (← requireField j "roundedMultiplier")
  .ok { number := number, roundedMultiplier := roundedMultiplier }

/-- Parse every element of a JSON array with `p`; any failing element fails
the whole array, like `z.array(...)`. -/
def parseElems {α : Type} (p : Json → Except String α) :
    List Json → Except String (List α)
  | [] => .ok []
  | x :: xs => do
    let a ← p x
    let as ← parseElems p xs
    .ok (a :: as)

/-- Model of `RouletteTableSchema`: partition id and display name. -/
def parseTable (j : Json) : Except String RouletteTable := do
  let id ← parseString (← requireField j "id")
  let name ← parseString (← requireField j "name")
  .ok { id := id, name := name }

/-- Model of the `result` object: the outcome plus an optional
`luckyNumbersList`. -/
def parseResult (j : Json) : Except String RouletteResult := do
  let outcome ← parseOutcome (← requireField j "outcome")
  match j.getField "luckyNumbersList" with
  | none => .ok { outcome := outcome, luckyNumbersList := none }
  | some lj =>
    match lj with
    | .arr elems => do
      let lucky ← parseElems parseLuckyNumber elems
      .ok { outcome := outcome, luckyNumbersList := some lucky }
    | _ => .error "Expected array for luckyNumbersList"

/-- Model of `RouletteDataSchema`: the inner data payload with coerced
timestamps. -/
def parseData (j : Json) : Except String RouletteData := do
  let id ← parseString (← requireField j "id")
  let startedAt ← parseDate (← requireField j "startedAt")
  let settledAt ← parseDate (← requireField j "settledAt")
  let status ← parseString (← requireField j "status")
  let gameType ← parseString (← requireField j "gameType")
  let table ← parseTable (← requireField j "table")
  let result ← parseResult (← requireField j "result")
  .ok { id := id, startedAt := startedAt, settledAt := settledAt,
        status := status, gameType := gameType, table := table, result := result }

/-- Model of `RouletteEventSchema`: envelope id plus data payload. -/
def parseEvent (j : Json) : Except String RouletteEvent := do
  let id ← parseString (← requireField j "id")
  let data ← parseData (← requireField j "data")
  .ok { id := id, data := data }

/-- Model of `RouletteEventsArraySchema.parse`: the top-level value must be
an array and every element must validate; otherwise the whole batch is
rejected. -/
def parseRouletteEvents (j : Json) : Except String (List RouletteEvent) :=
  match j with
  | .arr elems => parseElems parseEvent elems
  | _ => .error "Expected array"

/-- Whether a JSON value is a string (any content). -/
def isJsonString (j : Json) : Bool :=
  match j with
  | .str _ => true
  | _ => false

/-- Whether a JSON value is a number. -/
def isJsonNumber (j : Json) : Bool :=
  match j with
  | .num _ => true
  | _ => false

/-- Field check helper: the field exists and satisfies `p`. -/
def fieldIs (j : Json) (key : String) (p : Json → Bool) : Bool :=
  match j.getField key with
  | some v => p v
  | none => false

/-- Model of the `RouletteOutcomeSchema` of `src/unnamed/part_000`
(the duplicate script variant): `type` and `color` are plain `z.string()`,
so any string value is accepted. -/
def part000OutcomeValid (j : Json) : Bool :=
  fieldIs j "number" isJsonNumber && fieldIs j "type" isJsonString &&
    fieldIs j "color" isJsonString

/-- One `luckyNumbersList` entry of the part_000 schema. -/
def part000LuckyValid (j : Json) : Bool :=
  fieldIs j "number" isJsonNumber && fieldIs j "roundedMultiplier" isJsonNumber

/-- The `result` object of the part_000 schema. -/
def part000ResultValid (j : Json) : Bool :=
  fieldIs j "outcome" part000OutcomeValid &&
    (match j.getField "luckyNumbersList" with
     | none => true
     | some (.arr elems) => elems.all part000LuckyValid
     | some _ => false)

/-- The `data` payload of the part_000 schema: `startedAt` and `settledAt`
are plain strings there, not coerced dates. -/
def part000DataValid (j : Json) : Bool :=
  fieldIs j "id" isJsonString && fieldIs j "startedAt" isJsonString &&
    fieldIs j "settledAt" isJsonString && fieldIs j "status" isJsonString &&
    fieldIs j "gameType" isJsonString &&
    fieldIs j "table" (fun t => fieldIs t "id" isJsonString && fieldIs t "name" isJsonString) &&
    fieldIs j "result" part000ResultValid

/-- One event of the part_000 schema. -/
def part000EventValid (j : Json) : Bool :=
  fieldIs j "id" isJsonString && fieldIs j "data" part000DataValid

/-- Model of `RouletteEventsArraySchema.parse` of `src/unnamed/part_000`:
accepts exactly the payloads its zod schema accepts. -/
def part000PayloadValid (j : Json) : Bool :=
  match j with
  | .arr elems => elems.all part000EventValid
  | _ => false

/-- A row of the `casino` dimension table: surrogate id, natural key
(`table_id`, unique at the store level), display name, creation time. -/
structure Casino where
  id : Nat
  table_id : String
  table_name : String
  created_at : Int
deriving Repr, DecidableEq

/-- A row of the `roulette_events` fact table.  `event_id` is the unique
external dedup key; there is no column for the envelope id. -/
structure FactRow where
  event_id : String
  started_at : Int
  settled_at : Int
  outcome_number : Int
  outcome_type : String
  outcome_color : String
  casino_id : Nat
  created_at : Int
deriving Repr, DecidableEq

/-- The persisted store: the two tables plus the next value of the
`casino.id` serial sequence. -/
structure Store where
  casinos : List Casino
  facts : List FactRow
  nextCasinoId : Nat
deriving Repr, DecidableEq

/-- Errors a pipeline invocation can surface, per the spec taxonomy. -/
inductive PipeError where
  | validationError (msg : String)
  | integrityError (msg : String)
  | storageError (msg : String)
deriving Repr, DecidableEq

/-- Storage operations a pipeline invocation issues, recorded in order. -/
inductive Op where
  | watermarkQuery (tableId : String)
  | casinoSelect (tableId tableName : String)
  | casinoInsert (tableId tableName : String)
  | factBulkInsert (rows : List FactRow)
deriving Repr, DecidableEq

instance {ε α : Type} [DecidableEq ε] [DecidableEq α] : DecidableEq (Except ε α) := fun
  | .error e, .error f =>
    if h : e = f then .isTrue (by rw [h])
    else .isFalse (by intro hc; cases hc; exact h rfl)
  | .error _, .ok _ => .isFalse (by intro hc; cases hc)
  | .ok _, .error _ => .isFalse (by intro hc; cases hc)
  | .ok a, .ok b =>
    if h : a = b then .isTrue (by rw [h])
    else .isFalse (by intro hc; cases hc; exact h rfl)

/-- Outcome of one pipeline invocation: the returned `processed` count or
the surfaced error, the store after the run, and the issued operations. -/
structure RunResult where
  result : Except PipeError Nat
  store : Store
  ops : List Op
deriving Repr, DecidableEq

/-- Model of SQL `MAX` over a list of values: `none` on the empty list. -/
def sqlMax : List Int → Option Int
  | [] => none
  | x :: xs =>
    match sqlMax xs with
    | none => some x
    | some m => some (max x m)

/-- Whether a fact row belongs to partition `tid`, through the dimension
join `re.casino_id = c.id AND c.table_id = tid`. -/
def factInTable (st : Store) (tid : String) (f : FactRow) : Bool :=
  st.casinos.any (fun c => c.id == f.casino_id && c.table_id == tid)

/-- One watermark lookup:
`SELECT MAX(re.settled_at) FROM roulette_events re JOIN casino c ON
re.casino_id = c.id WHERE c.table_id = tid`. -/
def latestSettledAt (st : Store) (tid : String) : Option Int :=
  sqlMax ((st.facts.filter (factInTable st tid)).map (fun f => f.settled_at))

/-- Insertion-ordered deduplication, the model of filling a JS `Set` (or a
`Map` keyset) by iteration: keeps first occurrences. -/
def uniqueFirst (l : List String) : List String :=
  l.foldl (fun acc x => if acc.contains x then acc else acc ++ [x]) []

/-- The distinct partition ids of a batch, in first-occurrence order
(`uniqueTableIds` in the source, built from the whole validated batch). -/
def uniqueTableIds (events : List RouletteEvent) : List String :=
  uniqueFirst (events.map (fun e => e.data.table.id))

/-- The watermark map `casinoLatestSettledMap`: one entry per queried
partition id whose `MAX` came back non-null. -/
def resolveWatermarks (st : Store) (tids : List String) : List (String × Int) :=
  tids.filterMap (fun tid => (latestSettledAt st tid).map (fun w => (tid, w)))

/-- Lookup in the watermark map (`casinoLatestSettledMap.get`). -/
def lookupWatermark (wm : List (String × Int)) (tid : String) : Option Int :=
  (wm.find? (fun p => p.1 == tid)).map (fun p => p.2)

/-- The filter stage predicate: status must equal the literal `"Resolved"`
and, when the partition has a watermark, the settlement timestamp must be
strictly greater. -/
def passesFilter (wm : List (String × Int)) (e : RouletteEvent) : Bool :=
  e.data.status == "Resolved" &&
    (match lookupWatermark wm e.data.table.id with
     | none => true
     | some w => decide (w < e.data.settledAt))

/-- The `resolvedEvents` to-ingest set. -/
def filterEvents (wm : List (String × Int)) (events : List RouletteEvent) :
    List RouletteEvent :=
  events.filter (passesFilter wm)

/-- The `uniqueTables` map of the dimension-resolution step: iterating the
to-ingest set, a pair is added only when its partition id is not yet a key,
so the map holds one entry per distinct partition id, carrying the display
name of the first event bearing that id. -/
def uniqueTables (events : List RouletteEvent) : List (String × String) :=
  events.foldl
    (fun acc e =>
      if acc.any (fun p => p.1 == e.data.table.id) then acc
      else acc ++ [(e.data.table.id, e.data.table.name)])
    []

/-- Lookup in the `casinoCache` (`casinoCache.get(tableId)`). -/
def lookupCache (cache : List (String × Nat)) (tid : String) : Option Nat :=
  (cache.find? (fun p => p.1 == tid)).map (fun p => p.2)

/-- One dimension get-or-create: select by natural key (both fields); on a
miss, insert a new row.  The insert enforces the store-level `UNIQUE`
constraint on `casino.table_id`: the source issues a plain `INSERT` with no
conflict handling, so a violation surfaces as a storage error. -/
def getOrCreateCasino (st : Store) (now : Int) (tid name : String) :
    Store × List Op × Except PipeError Nat :=
  match st.casinos.find? (fun c => c.table_id == tid && c.table_name == name) with
  | some c => (st, [Op.casinoSelect tid name], .ok c.id)
  | none =>
    if st.casinos.any (fun c => c.table_id == tid) then
      (st, [Op.casinoSelect tid name, Op.casinoInsert tid name],
        .error (.storageError "duplicate key value violates unique constraint casino_table_id_key"))
    else
      ({ casinos := st.casinos ++ [{ id := st.nextCasinoId, table_id := tid,
                                     table_name := name, created_at := now }],
         facts := st.facts, nextCasinoId := st.nextCasinoId + 1 },
       [Op.casinoSelect tid name, Op.casinoInsert tid name], .ok st.nextCasinoId)

/-- Resolve every pair of `uniqueTables` to a surrogate id, building the
`casinoCache`.  The source dispatches these independently and awaits them
all; the model is the sequential linearisation.  An error stops the run;
already-created dimension rows are not rolled back. -/
def resolveCasinos (now : Int) :
    List (String × String) → Store → Store × List Op × Except PipeError (List (String × Nat))
  | [], st => (st, [], .ok [])
  | (tid, name) :: rest, st =>
    match getOrCreateCasino st now tid name with
    | (st1, ops1, .error e) => (st1, ops1, .error e)
    | (st1, ops1, .ok cid) =>
      match resolveCasinos now rest st1 with
      | (st2, ops2, .ok cache) => (st2, ops1 ++ ops2, .ok ((tid, cid) :: cache))
      | (st2, ops2, .error e) => (st2, ops1 ++ ops2, .error e)

/-- Build one fact row per to-ingest event, resolving the dimension id from
the cache.  A missing id, or the id `0` (falsy in the source's
`if (!casinoId)` check), aborts with the `"Invalid fields!"` integrity
error.  `event_id` is the inner `data.id`, not the envelope id. -/
def buildFactRows (cache : List (String × Nat)) (now : Int) :
    List RouletteEvent → Except PipeError (List FactRow)
  | [] => .ok []
  | e :: rest =>
    match lookupCache cache e.data.table.id with
    | none => .error (.integrityError "Invalid fields!")
    | some cid =>
      if cid == 0 then .error (.integrityError "Invalid fields!")
      else
        match buildFactRows cache now rest with
        | .error err => .error err
        | .ok rows =>
          .ok ({ event_id := e.data.id, started_at := e.data.startedAt,
                 settled_at := e.data.settledAt,
                 outcome_number := e.data.result.outcome.number,
                 outcome_type := e.data.result.outcome.type,
                 outcome_color := e.data.result.outcome.color,
                 casino_id := cid, created_at := now } :: rows)

/-- The bulk `INSERT ... ON CONFLICT (event_id) DO NOTHING`: rows whose
`event_id` already exists (including earlier rows of the same statement)
are silently skipped. -/
def insertFacts : List FactRow → List FactRow → List FactRow
  | facts, [] => facts
  | facts, r :: rs =>
    if facts.any (fun f => f.event_id == r.event_id) then insertFacts facts rs
    else insertFacts (facts ++ [r]) rs

/-- The ingestion pipeline on a validated batch
(`processRouletteData` of src/scripts/process-roulette-data.ts after
`RouletteEventsArraySchema.parse`): resolve watermarks, filter,
short-circuit on an empty to-ingest set, resolve dimensions, build fact
rows, bulk-insert with conflict skip, and return the attempted count. -/
def processValidated (st : Store) (now : Int) (events : List RouletteEvent) :
    RunResult :=
  let tids := uniqueTableIds events
  let wmOps := tids.map Op.watermarkQuery
  let wm := resolveWatermarks st tids
  let resolvedEvents := filterEvents wm events
  if resolvedEvents.length == 0 then
    { result := .ok 0, store := st, ops := wmOps }
  else
    match resolveCasinos now (uniqueTables resolvedEvents) st with
    | (st1, ops1, .error e) =>
      { result := .error e, store := st1, ops := wmOps ++ ops1 }
    | (st1, ops1, .ok cache) =>
      match buildFactRows cache now resolvedEvents with
      | .error e => { result := .error e, store := st1, ops := wmOps ++ ops1 }
      | .ok rows =>
        if 0 < rows.length then
          { result := .ok resolvedEvents.length,
            store := { casinos := st1.casinos,
                       facts := insertFacts st1.facts rows,
                       nextCasinoId := st1.nextCasinoId },
            ops := wmOps ++ ops1 ++ [Op.factBulkInsert rows] }
        else
          { result := .ok resolvedEvents.length, store := st1, ops := wmOps ++ ops1 }

/-- The whole `processRouletteData` call on a raw payload: schema
validation first; a shape mismatch aborts the run with a `ValidationError`
before any storage write. -/
def processRouletteData (st : Store) (now : Int) (payload : Json) : RunResult :=
  match parseRouletteEvents payload with
  | .error msg => { result := .error (.validationError msg), store := st, ops := [] }
  | .ok events => processValidated st now events

/-- The watermark step of the `src/app/api/score/route copy.ts` variant:
a single `SELECT MAX(settled_at) FROM roulette_events` over all facts,
with no dimension join and no per-partition map. -/
def routeLatestSettledAt (st : Store) : Option Int :=
  sqlMax (st.facts.map (fun f => f.settled_at))

/-- The filter of that variant: every event is compared against the one
global maximum, whatever its partition. -/
def routePassesFilter (glob : Option Int) (e : RouletteEvent) : Bool :=
  e.data.status == "Resolved" &&
    (match glob with
     | none => true
     | some w => decide (w < e.data.settledAt))

/-- The `resolvedEvents` to-ingest set of the score-route variant. -/
def routeResolvedEvents (st : Store) (events : List RouletteEvent) :
    List RouletteEvent :=
  events.filter (routePassesFilter (routeLatestSettledAt st))

/-- Result of a SQL `DELETE`: the returned row list (empty without a
`RETURNING` clause) and the command-tag count of affected rows, as the
postgres driver exposes them. -/
structure SqlDeleteResult where
  rows : List FactRow
  count : Nat
deriving Repr, DecidableEq

/-- `DELETE FROM roulette_events WHERE created_at < cutoff`. -/
def deleteOldFacts (st : Store) (cutoff : Int) : Store × SqlDeleteResult :=
  let kept := st.facts.filter (fun f => decide (cutoff ≤ f.created_at))
  ({ casinos := st.casinos, facts := kept, nextCasinoId := st.nextCasinoId },
   { rows := [], count := st.facts.length - kept.length })

/-- A civil wall-clock instant as JS `Date` accessors expose it:
`getFullYear`, `getMonth` (0-based), `getDate` (1-based), plus the
time of day in seconds. -/
structure CivilTime where
  year : Int
  month : Int
  day : Int
  secOfDay : Int
deriving Repr, DecidableEq

/-- Epoch value of JS `MakeDay`-style date construction: the month is
normalised into the year with floor arithmetic and a day-of-month beyond
the month's length overflows into the following month. -/
def jsMakeEpoch (year month day secOfDay : Int) : Int :=
  let y := year + Int.fdiv month 12
  let m0 := Int.emod month 12
  (daysFromCivil y (m0 + 1) 1 + (day - 1)) * 86400 + secOfDay

/-- The retention cutoff `threeMonthsAgo`:
`d.setMonth(d.getMonth() - 3)` — calendar-month arithmetic (not 90 days),
keeping day-of-month and time of day, with JS day-overflow semantics. -/
def threeMonthsAgoEpoch (t : CivilTime) : Int :=
  jsMakeEpoch t.year (t.month - 3) t.day t.secOfDay

/-- `cleanupOldRouletteEvents` of `src/app/api/score/route copy.ts`
(cleaner route): deletes facts older than the cutoff and returns
`deleteResult.count`, the number of deleted rows. -/
def cleanupOldRouletteEventsRoute (st : Store) (t : CivilTime) : Store × Nat :=
  let res := deleteOldFacts st (threeMonthsAgoEpoch t)
  (res.1, res.2.count)

/-- `cleanupOldRouletteEvents` of
`src/scripts/cleanup-old-roulette-events.js`: same delete, but it returns
`deleteResult.length` — the length of the returned row list, which is
empty for a `DELETE` without `RETURNING`. -/
def cleanupOldRouletteEventsScript (st : Store) (t : CivilTime) : Store × Nat :=
  let res := deleteOldFacts st (threeMonthsAgoEpoch t)
  (res.1, res.2.rows.length)

/-! Concrete inputs used by witnesses and counterexamples. -/

/-- An empty store whose serial sequence starts at 1, as a fresh database. -/
def emptyStore : Store := { casinos := [], facts := [], nextCasinoId := 1 }

/-- A validated event with the given envelope id, inner data id, table,
settlement time and status. -/
def mkEvent (env did tid tname : String) (settled : Int) (status : String) :
    RouletteEvent :=
  { id := env,
    data := { id := did, startedAt := settled - 40, settledAt := settled,
              status := status, gameType := "megaroulette",
              table := { id := tid, name := tname },
              result := { outcome := { number := 5, type := "Odd", color := "Red" },
                          luckyNumbersList := none } } }

/-- Batch with a duplicate inner data id under two envelope ids, differing
display names and settlement times. -/
def batchDupId : List RouletteEvent :=
  [mkEvent "E1" "x" "2" "P" 10 "Resolved", mkEvent "E2" "x" "2" "Q" 20 "Resolved"]

/-- Batch whose two events share a partition id but carry two different
display names. -/
def batchTwoNames : List RouletteEvent :=
  [mkEvent "E1" "a" "1" "A" 10 "Resolved", mkEvent "E2" "b" "1" "B" 20 "Resolved"]

/-- Store already holding the dimension `(table_id "1", name "A")`. -/
def storeDimA : Store :=
  { casinos := [{ id := 1, table_id := "1", table_name := "A", created_at := 0 }],
    facts := [], nextCasinoId := 2 }

/-- Event for partition id "1" with display name "B". -/
def eventDimB : RouletteEvent := mkEvent "E1" "z" "1" "B" 10 "Resolved"

/-- Store with one fact settled at 10 in partition "A" and none in "B". -/
def storePartA : Store :=
  { casinos := [{ id := 1, table_id := "A", table_name := "TA", created_at := 0 }],
    facts := [{ event_id := "old", started_at := 0, settled_at := 10,
                outcome_number := 1, outcome_type := "Odd", outcome_color := "Red",
                casino_id := 1, created_at := 0 }],
    nextCasinoId := 2 }

/-- A resolved event of partition "B" settled at 5. -/
def eventPartB : RouletteEvent := mkEvent "E9" "y" "B" "TB" 5 "Resolved"

/-- Batch with two envelope ids sharing one inner data id in one table. -/
def batchSharedInner : List RouletteEvent :=
  [mkEvent "E1" "x" "2" "P" 10 "Resolved", mkEvent "E2" "x" "2" "P" 20 "Resolved"]

/-- A single-event batch whose status is not the literal `"Resolved"`. -/
def batchPending : List RouletteEvent := [mkEvent "E1" "p" "3" "T" 10 "Pending"]

/-- The spec scenario batch: one resolved event for table 204. -/
def batchScenario : List RouletteEvent :=
  [{ id := "env1",
     data := { id := "x1", startedAt := 100, settledAt := 140, status := "Resolved",
               gameType := "megaroulette", table := { id := "204", name := "Mega Roulette" },
               result := { outcome := { number := 35, type := "Odd", color := "Black" },
                           luckyNumbersList := none } } }]

/-- A JSON event element whose outcome color is outside the enum
(`"Purple"`); every other field is well-formed. -/
def elemBadColor : Json :=
  Json.obj
    [("id", Json.str "E1"),
     ("data", Json.obj
       [("id", Json.str "x1"),
        ("startedAt", Json.str "2025-11-10T01:07:10Z"),
        ("settledAt", Json.str "2025-11-10T01:07:50Z"),
        ("status", Json.str "Resolved"),
        ("gameType", Json.str "megaroulette"),
        ("table", Json.obj [("id", Json.str "204"), ("name", Json.str "Mega Roulette")]),
        ("result", Json.obj
          [("outcome", Json.obj
             [("number", Json.num 35), ("type", Json.str "Odd"),
              ("color", Json.str "Purple")])])])]

/-- A well-formed single-event JSON payload (color inside the enum). -/
def payloadGood : Json :=
  Json.arr
    [Json.obj
      [("id", Json.str "E1"),
       ("data", Json.obj
         [("id", Json.str "x1"),
          ("startedAt", Json.str "2025-11-10T01:07:10Z"),
          ("settledAt", Json.str "2025-11-10T01:07:50Z"),
          ("status", Json.str "Resolved"),
          ("gameType", Json.str "megaroulette"),
          ("table", Json.obj [("id", Json.str "204"), ("name", Json.str "Mega Roulette")]),
          ("result", Json.obj
            [("outcome", Json.obj
               [("number", Json.num 35), ("type", Json.str "Odd"),
                ("color", Json.str "Black")])])])]]

/-- Whether a JSON element's outcome enums are valid: its
`data.result.outcome.type` is a string in {"Even", "Odd"} and its
`data.result.outcome.color` a string in {"Red", "Black", "Green"}. -/
def hasValidOutcomeEnums (j : Json) : Bool :=
  match (do
      let d ← j.getField "data"
      let r ← d.getField "result"
      r.getField "outcome" : Option Json) with
  | none => false
  | some o =>
    (match o.getField "type" with
     | some (.str t) => t == "Even" || t == "Odd"
     | _ => false) &&
    (match o.getField "color" with
     | some (.str c) => c == "Red" || c == "Black" || c == "Green"
     | _ => false)

/-- The distinct (partition id, display name) pairs of a batch, in
first-occurrence order — a direct formalisation of the spec's phrase
"the set of distinct (partition id, display name) pairs appearing in the
to-ingest set", for comparison with the source's `uniqueTables`. -/
def specDistinctTablePairs (events : List RouletteEvent) : List (String × String) :=
  events.foldl
    (fun acc e =>
      if acc.contains (e.data.table.id, e.data.table.name) then acc
      else acc ++ [(e.data.table.id, e.data.table.name)])
    []

/-- Store for the retention scenario: one fact created 2025-06-11, one
created 2025-09-11, one dimension row. -/
def storeRetention : Store :=
  { casinos := [{ id := 1, table_id := "204", table_name := "Mega Roulette", created_at := 0 }],
    facts := [{ event_id := "oldF", started_at := 0, settled_at := 0,
                outcome_number := 1, outcome_type := "Odd", outcome_color := "Red",
                casino_id := 1, created_at := daysFromCivil 2025 6 11 * 86400 },
              { event_id := "youngF", started_at := 0, settled_at := 0,
                outcome_number := 2, outcome_type := "Even", outcome_color := "Black",
                casino_id := 1, created_at := daysFromCivil 2025 9 11 * 86400 }],
    nextCasinoId := 2 }

/-- The clock of the retention scenario: 2025-10-11 00:00:00 UTC
(`getMonth` is 0-based, so October is month 9). -/
def retentionNow : CivilTime := { year := 2025, month := 9, day := 11, secOfDay := 0 }

/-- Display name of the first event of a batch bearing a partition id. -/
def firstNameFor (events : List RouletteEvent) (tid : String) : Option String :=
  (events.find? (fun e => e.data.table.id == tid)).map (fun e => e.data.table.name)

/-- Whether an operation is a watermark lookup. -/
def isWatermarkQuery : Op → Bool
  | .watermarkQuery _ => true
  | _ => false

/-! Helper lemmas. -/

theorem sqlMax_le_of_mem {l : List Int} {a : Int} (h : a ∈ l) :
    ∃ w, sqlMax l = some w ∧ a ≤ w := by
  induction l with
  | nil => cases h
  | cons x xs ih =>
    rcases List.mem_cons.mp h with rfl | hxs
    · cases hm : sqlMax xs with
      | none => exact ⟨a, by simp [sqlMax, hm], le_refl a⟩
      | some m => exact ⟨max a m, by simp [sqlMax, hm], le_max_left a m⟩
    · obtain ⟨w, hw, haw⟩ := ih hxs
      exact ⟨max x w, by simp [sqlMax, hw], le_trans haw (le_max_right x w)⟩

theorem sqlMax_mem {l : List Int} {w : Int} (h : sqlMax l = some w) : w ∈ l := by
  induction l generalizing w with
  | nil => cases h
  | cons x xs ih =>
    cases hm : sqlMax xs with
    | none =>
      simp only [sqlMax, hm, Option.some.injEq] at h
      subst h
      exact List.mem_cons_self x xs
    | some m =>
      simp only [sqlMax, hm, Option.some.injEq] at h
      subst h
      rcases max_choice x m with hc | hc
      · rw [hc]; exact List.mem_cons_self x xs
      · rw [hc]; exact List.mem_cons_of_mem x (ih hm)

theorem sqlMax_mono {l1 l2 : List Int} {w : Int} (hsub : ∀ x ∈ l1, x ∈ l2)
    (h : sqlMax l1 = some w) : ∃ w2, sqlMax l2 = some w2 ∧ w ≤ w2 :=
  sqlMax_le_of_mem (hsub w (sqlMax_mem h))

theorem uniqueFirst_aux_mem (l : List String) :
    ∀ (acc : List String) (x : String),
      x ∈ l.foldl (fun acc y => if acc.contains y then acc else acc ++ [y]) acc ↔
        x ∈ acc ∨ x ∈ l := by
  induction l with
  | nil => intro acc x; simp
  | cons y ys ih =>
    intro acc x
    by_cases hy : acc.contains y
    · simp only [List.foldl_cons, if_pos hy, ih]
      constructor
      · rintro (hx | hx)
        · exact Or.inl hx
        · exact Or.inr (List.mem_cons_of_mem y hx)
      · rintro (hx | hx)
        · exact Or.inl hx
        · rcases List.mem_cons.mp hx with rfl | hx
          · exact Or.inl (by simpa using hy)
          · exact Or.inr hx
    · simp only [List.foldl_cons, if_neg hy, ih]
      simp only [List.mem_append, List.mem_singleton, List.mem_cons]
      tauto

theorem mem_uniqueFirst {l : List String} {x : String} :
    x ∈ uniqueFirst l ↔ x ∈ l := by
  rw [uniqueFirst, uniqueFirst_aux_mem]
  simp

theorem uniqueFirst_aux_nodup (l : List String) :
    ∀ (acc : List String), acc.Nodup →
      (l.foldl (fun acc y => if acc.contains y then acc else acc ++ [y]) acc).Nodup := by
  induction l with
  | nil => intro acc h; simpa using h
  | cons y ys ih =>
    intro acc hacc
    rw [List.foldl_cons]
    refine ih _ ?_
    by_cases hy : acc.contains y
    · rw [if_pos hy]; exact hacc
    · rw [if_neg hy]
      rw [List.nodup_append]
      refine ⟨hacc, List.nodup_singleton y, ?_⟩
      intro a ha hb
      rw [List.mem_singleton] at hb
      subst hb
      exact hy (by simpa using ha)

theorem uniqueFirst_nodup (l : List String) : (uniqueFirst l).Nodup :=
  uniqueFirst_aux_nodup l [] List.nodup_nil

theorem resolveWatermarks_entry {st : Store} {tids : List String}
    {tid : String} {w : Int} (h : (tid, w) ∈ resolveWatermarks st tids) :
    latestSettledAt st tid = some w := by
  rw [resolveWatermarks] at h
  rcases List.mem_filterMap.mp h with ⟨t, _, ht⟩
  cases hl : latestSettledAt st t with
  | none => rw [hl] at ht; cases ht
  | some v =>
    simp only [hl, Option.map_some', Option.some.injEq, Prod.mk.injEq] at ht
    obtain ⟨rfl, rfl⟩ := ht
    exact hl

theorem lookupWatermark_none {st : Store} {tids : List String} {tid : String}
    (h : latestSettledAt st tid = none) :
    lookupWatermark (resolveWatermarks st tids) tid = none := by
  rw [lookupWatermark]
  cases hf : (resolveWatermarks st tids).find? (fun p => p.1 == tid) with
  | none => rfl
  | some p =>
    have hp := List.find?_some hf
    have hmem := List.mem_of_find?_eq_some hf
    rw [beq_iff_eq] at hp
    have := @resolveWatermarks_entry st tids tid p.2 (by rw [← hp]; exact hmem)
    rw [h] at this
    cases this

theorem lookupWatermark_resolve {st : Store} {tids : List String} {tid : String}
    (h : tid ∈ tids) :
    lookupWatermark (resolveWatermarks st tids) tid = latestSettledAt st tid := by
  induction tids with
  | nil => cases h
  | cons t rest ih =>
    by_cases ht : t = tid
    · subst ht
      cases hl : latestSettledAt st t with
      | none => exact lookupWatermark_none hl
      | some w =>
        rw [resolveWatermarks, List.filterMap_cons, hl]
        simp only [Option.map_some']
        rw [lookupWatermark]
        simp [List.find?]
    · have htid : tid ∈ rest := by
        rcases List.mem_cons.mp h with rfl | hr
        · exact absurd rfl ht
        · exact hr
      rw [resolveWatermarks, List.filterMap_cons]
      cases hl : latestSettledAt st t with
      | none => exact ih htid
      | some w =>
        simp only [Option.map_some']
        have hb : (t == tid) = false := by simp [ht]
        rw [lookupWatermark]
        simp only [List.find?, hb]
        exact ih htid

theorem passesFilter_iff (wm : List (String × Int)) (e : RouletteEvent) :
    passesFilter wm e = true ↔
      e.data.status = "Resolved" ∧
        (lookupWatermark wm e.data.table.id = none ∨
         ∃ w, lookupWatermark wm e.data.table.id = some w ∧ w < e.data.settledAt) := by
  rw [passesFilter]
  cases hl : lookupWatermark wm e.data.table.id with
  | none => simp [hl]
  | some w => simp [hl]

theorem mem_filterEvents {wm : List (String × Int)} {events : List RouletteEvent}
    {e : RouletteEvent} :
    e ∈ filterEvents wm events ↔ e ∈ events ∧ passesFilter wm e = true := by
  rw [filterEvents, List.mem_filter]

theorem latestSettledAt_none_iff {st : Store} {tid : String} :
    latestSettledAt st tid = none ↔ ∀ f ∈ st.facts, factInTable st tid f = false := by
  rw [latestSettledAt]
  constructor
  · intro h f hf
    by_contra hft
    rw [Bool.not_eq_false] at hft
    have hmem : f.settled_at ∈ (st.facts.filter (factInTable st tid)).map (fun f => f.settled_at) :=
      List.mem_map_of_mem _ (List.mem_filter.mpr ⟨hf, hft⟩)
    obtain ⟨w, hw, _⟩ := sqlMax_le_of_mem hmem
    rw [h] at hw
    cases hw
  · intro h
    have hnil : (st.facts.filter (factInTable st tid)) = [] := by
      rw [List.filter_eq_nil_iff]
      intro f hf
      rw [h f hf]
      simp
    rw [hnil]
    rfl

theorem latestSettledAt_le {st : Store} {tid : String} {f : FactRow}
    (hf : f ∈ st.facts) (hft : factInTable st tid f = true) :
    ∃ w, latestSettledAt st tid = some w ∧ f.settled_at ≤ w := by
  rw [latestSettledAt]
  exact sqlMax_le_of_mem
    (List.mem_map_of_mem _ (List.mem_filter.mpr ⟨hf, hft⟩))

theorem latestSettledAt_some_witness {st : Store} {tid : String} {w : Int}
    (h : latestSettledAt st tid = some w) :
    ∃ f ∈ st.facts, factInTable st tid f = true ∧ f.settled_at = w := by
  rw [latestSettledAt] at h
  have hw := sqlMax_mem h
  rcases List.mem_map.mp hw with ⟨f, hf, hfs⟩
  rcases List.mem_filter.mp hf with ⟨hmem, hft⟩
  exact ⟨f, hmem, hft, hfs⟩

theorem latestSettledAt_ub {st : Store} {tid : String} {w : Int}
    (h : latestSettledAt st tid = some w) :
    ∀ f ∈ st.facts, factInTable st tid f = true → f.settled_at ≤ w := by
  intro f hf hft
  obtain ⟨w2, hw2, hle⟩ := latestSettledAt_le hf hft
  rw [h] at hw2
  injection hw2 with hw2
  subst hw2
  exact hle

theorem factInTable_mono {st1 st2 : Store} {tid : String} {f : FactRow}
    (hcas : ∀ c ∈ st1.casinos, c ∈ st2.casinos)
    (h : factInTable st1 tid f = true) : factInTable st2 tid f = true := by
  rw [factInTable] at h ⊢
  rcases List.any_eq_true.mp h with ⟨c, hc, hcp⟩
  exact List.any_eq_true.mpr ⟨c, hcas c hc, hcp⟩

theorem latestSettledAt_mono {st1 st2 : Store} {tid : String} {w : Int}
    (hfacts : ∀ f ∈ st1.facts, f ∈ st2.facts)
    (hcas : ∀ c ∈ st1.casinos, c ∈ st2.casinos)
    (h : latestSettledAt st1 tid = some w) :
    ∃ w2, latestSettledAt st2 tid = some w2 ∧ w ≤ w2 := by
  obtain ⟨f, hf, hft, hfs⟩ := latestSettledAt_some_witness h
  obtain ⟨w2, hw2, hle⟩ := latestSettledAt_le (hfacts f hf) (factInTable_mono hcas hft)
  exact ⟨w2, hw2, hfs ▸ hle⟩

theorem getOrCreateCasino_ok {st : Store} {now : Int} {tid name : String}
    {st1 : Store} {ops1 : List Op} {cid : Nat}
    (h : getOrCreateCasino st now tid name = (st1, ops1, .ok cid)) :
    st1.facts = st.facts ∧
    (∀ c ∈ st.casinos, c ∈ st1.casinos) ∧
    (∃ c ∈ st1.casinos, c.id = cid ∧ c.table_id = tid) ∧
    (∀ op ∈ ops1, isWatermarkQuery op = false) := by
  cases hf : st.casinos.find? (fun c => c.table_id == tid && c.table_name == name) with
  | some c =>
    simp only [getOrCreateCasino, hf, Prod.mk.injEq, Except.ok.injEq] at h
    obtain ⟨h1, h2, h3⟩ := h
    subst h1
    subst h2
    subst h3
    refine ⟨rfl, fun c' hc' => hc', ?_, ?_⟩
    · have hc := List.mem_of_find?_eq_some hf
      have hp := List.find?_some hf
      simp only [Bool.and_eq_true, beq_iff_eq] at hp
      exact ⟨c, hc, rfl, hp.1⟩
    · intro op hop
      rw [List.mem_singleton] at hop
      subst hop
      rfl
  | none =>
    by_cases hconf : st.casinos.any (fun c => c.table_id == tid)
    · simp only [getOrCreateCasino, hf, if_pos hconf, Prod.mk.injEq] at h
      exact absurd h.2.2 (by simp)
    · simp only [getOrCreateCasino, hf, if_neg hconf, Prod.mk.injEq, Except.ok.injEq] at h
      obtain ⟨h1, h2, h3⟩ := h
      subst h2
      subst h3
      rw [← h1]
      refine ⟨rfl, ?_, ?_, ?_⟩
      · intro c hc
        exact List.mem_append_left _ hc
      · refine ⟨{ id := st.nextCasinoId, table_id := tid, table_name := name,
                  created_at := now }, ?_, rfl, rfl⟩
        exact List.mem_append_right _ (List.mem_singleton_self _)
      · intro op hop
        rcases List.mem_cons.mp hop with rfl | hop
        · rfl
        · rw [List.mem_singleton] at hop
          subst hop
          rfl

theorem resolveCasinos_ok {now : Int} :
    ∀ {pairs : List (String × String)} {st st2 : Store} {ops2 : List Op}
      {cache : List (String × Nat)},
      resolveCasinos now pairs st = (st2, ops2, .ok cache) →
      st2.facts = st.facts ∧
      (∀ c ∈ st.casinos, c ∈ st2.casinos) ∧
      (∀ p ∈ cache, ∃ c ∈ st2.casinos, c.id = p.2 ∧ c.table_id = p.1) ∧
      cache.map Prod.fst = pairs.map Prod.fst ∧
      (∀ op ∈ ops2, isWatermarkQuery op = false) := by
  intro pairs
  induction pairs with
  | nil =>
    intro st st2 ops2 cache h
    simp only [resolveCasinos, Prod.mk.injEq] at h
    obtain ⟨h1, h2, h3⟩ := h
    subst h1
    subst h2
    injection h3 with h3
    subst h3
    exact ⟨rfl, fun c hc => hc, by simp, rfl, by simp⟩
  | cons pair rest ih =>
    intro st st2 ops2 cache h
    obtain ⟨tid, name⟩ := pair
    rcases hg : getOrCreateCasino st now tid name with ⟨st1, ops1, r1⟩
    cases r1 with
    | error e =>
      simp only [resolveCasinos, hg, Prod.mk.injEq] at h
      exact absurd h.2.2 (by simp)
    | ok cid =>
      rcases hr : resolveCasinos now rest st1 with ⟨st2a, ops2a, r2⟩
      cases r2 with
      | error e =>
        simp only [resolveCasinos, hg, hr, Prod.mk.injEq] at h
        exact absurd h.2.2 (by simp)
      | ok cacheRest =>
        simp only [resolveCasinos, hg, hr, Prod.mk.injEq, Except.ok.injEq] at h
        obtain ⟨h1, h2, h3⟩ := h
        subst h1
        subst h2
        subst h3
        obtain ⟨gfacts, gcas, ⟨c0, hc0, hc0id, hc0tid⟩, gops⟩ := getOrCreateCasino_ok hg
        obtain ⟨rfacts, rcas, rcache, rkeys, rops⟩ := ih hr
        refine ⟨rfacts.trans gfacts, fun c hc => rcas c (gcas c hc), ?_, ?_, ?_⟩
        · intro p hp
          rcases List.mem_cons.mp hp with rfl | hp
          · exact ⟨c0, rcas c0 hc0, hc0id, hc0tid⟩
          · exact rcache p hp
        · simp only [List.map_cons, rkeys]
        · intro op hop
          rcases List.mem_append.mp hop with hop | hop
          · exact gops op hop
          · exact rops op hop

theorem buildFactRows_ok {cache : List (String × Nat)} {now : Int} :
    ∀ {evs : List RouletteEvent} {rows : List FactRow},
      buildFactRows cache now evs = .ok rows →
      rows.length = evs.length ∧
      rows.map (fun r => r.event_id) = evs.map (fun e => e.data.id) ∧
      ∀ p ∈ evs.zip rows,
        p.2.event_id = p.1.data.id ∧
        p.2.settled_at = p.1.data.settledAt ∧
        p.2.created_at = now ∧
        lookupCache cache p.1.data.table.id = some p.2.casino_id := by
  intro evs
  induction evs with
  | nil =>
    intro rows h
    simp only [buildFactRows, Except.ok.injEq] at h
    subst h
    exact ⟨rfl, rfl, by simp⟩
  | cons e rest ih =>
    intro rows h
    cases hc : lookupCache cache e.data.table.id with
    | none =>
      simp only [buildFactRows, hc] at h
      exact Except.noConfusion h
    | some cid =>
      by_cases hz : cid == 0
      · simp only [buildFactRows, hc, if_pos hz] at h
        exact Except.noConfusion h
      · cases hb : buildFactRows cache now rest with
        | error err =>
          simp only [buildFactRows, hc, if_neg hz, hb] at h
          exact Except.noConfusion h
        | ok rowsRest =>
          simp only [buildFactRows, hc, if_neg hz, hb, Except.ok.injEq] at h
          subst h
          obtain ⟨ihlen, ihids, ihzip⟩ := ih hb
          refine ⟨by simp [ihlen], by simp [ihids], ?_⟩
          intro p hp
          rcases List.mem_cons.mp hp with rfl | hp
          · exact ⟨rfl, rfl, rfl, hc⟩
          · exact ihzip p hp

theorem buildFactRows_total {cache : List (String × Nat)} {now : Int} :
    ∀ {evs : List RouletteEvent},
      (∀ e ∈ evs, ∃ cid, lookupCache cache e.data.table.id = some cid ∧ 0 < cid) →
      ∃ rows, buildFactRows cache now evs = .ok rows := by
  intro evs
  induction evs with
  | nil => exact fun _ => ⟨[], rfl⟩
  | cons e rest ih =>
    intro h
    obtain ⟨cid, hc, hpos⟩ := h e (List.mem_cons_self e rest)
    have hz : (cid == 0) = false := by
      simp only [beq_eq_false_iff_ne, ne_eq]
      omega
    obtain ⟨rowsRest, hb⟩ := ih (fun e' he' => h e' (List.mem_cons_of_mem e he'))
    simp only [buildFactRows, hc, hz, hb]
    exact ⟨_, rfl⟩

theorem exists_zip_of_mem {α β : Type} :
    ∀ {l1 : List α} {l2 : List β}, l1.length = l2.length →
      ∀ {a : α}, a ∈ l1 → ∃ b, (a, b) ∈ l1.zip l2 := by
  intro l1
  induction l1 with
  | nil => intro l2 _ a ha; cases ha
  | cons x xs ih =>
    intro l2 hlen a ha
    cases l2 with
    | nil => cases hlen
    | cons y ys =>
      rcases List.mem_cons.mp ha with rfl | ha
      · exact ⟨y, List.mem_cons_self _ _⟩
      · obtain ⟨b, hb⟩ := ih (by simpa using hlen) ha
        exact ⟨b, List.mem_cons_of_mem _ hb⟩

theorem insertFacts_mem_left :
    ∀ {rows facts : List FactRow} {f : FactRow},
      f ∈ facts → f ∈ insertFacts facts rows := by
  intro rows
  induction rows with
  | nil => intro facts f hf; exact hf
  | cons r rs ih =>
    intro facts f hf
    by_cases hany : facts.any (fun g => g.event_id == r.event_id)
    · rw [insertFacts, if_pos hany]
      exact ih hf
    · rw [insertFacts, if_neg hany]
      exact ih (List.mem_append_left _ hf)

theorem insertFacts_append :
    ∀ {rows facts : List FactRow},
      (rows.map (fun r => r.event_id)).Nodup →
      (∀ r ∈ rows, ∀ f ∈ facts, ¬ f.event_id = r.event_id) →
      insertFacts facts rows = facts ++ rows := by
  intro rows
  induction rows with
  | nil => intro facts _ _; simp [insertFacts]
  | cons r rs ih =>
    intro facts hnodup hfresh
    have hany : facts.any (fun g => g.event_id == r.event_id) = false := by
      rw [List.any_eq_false]
      intro f hf
      simp only [beq_iff_eq]
      exact hfresh r (List.mem_cons_self r rs) f hf
    rw [insertFacts, hany]
    simp only [Bool.false_eq_true, if_false]
    rw [List.map_cons, List.nodup_cons] at hnodup
    rw [ih hnodup.2 ?_]
    · simp
    · intro r' hr' f hf
      rcases List.mem_append.mp hf with hf | hf
      · exact hfresh r' (List.mem_cons_of_mem r hr') f hf
      · rw [List.mem_singleton] at hf
        subst hf
        intro heq
        exact hnodup.1 (heq ▸ List.mem_map_of_mem (fun x => x.event_id) hr')

theorem any_fst_eq_contains (accP : List (String × String)) (x : String) :
    accP.any (fun p => p.1 == x) = (accP.map Prod.fst).contains x := by
  rw [Bool.eq_iff_iff]
  simp [List.any_eq_true]

theorem uniqueTables_fst_aux (evs : List RouletteEvent) :
    ∀ accP : List (String × String),
      (evs.foldl
        (fun acc e =>
          if acc.any (fun p => p.1 == e.data.table.id) then acc
          else acc ++ [(e.data.table.id, e.data.table.name)]) accP).map Prod.fst =
      (evs.map (fun e => e.data.table.id)).foldl
        (fun acc x => if acc.contains x then acc else acc ++ [x]) (accP.map Prod.fst) := by
  induction evs with
  | nil => intro accP; simp
  | cons e rest ih =>
    intro accP
    rw [List.foldl_cons, List.map_cons, List.foldl_cons,
      ← any_fst_eq_contains accP e.data.table.id]
    by_cases hc : accP.any (fun p => p.1 == e.data.table.id)
    · rw [if_pos hc, if_pos hc]
      exact ih accP
    · rw [if_neg hc, if_neg hc]
      have := ih (accP ++ [(e.data.table.id, e.data.table.name)])
      simpa using this

theorem uniqueTables_fst (evs : List RouletteEvent) :
    (uniqueTables evs).map Prod.fst = uniqueTableIds evs := by
  have h := uniqueTables_fst_aux evs []
  simpa [uniqueTables, uniqueTableIds, uniqueFirst] using h

theorem mem_fst_uniqueTables {evs : List RouletteEvent} {e : RouletteEvent}
    (h : e ∈ evs) : e.data.table.id ∈ (uniqueTables evs).map Prod.fst := by
  rw [uniqueTables_fst, uniqueTableIds, mem_uniqueFirst]
  exact List.mem_map_of_mem _ h

theorem uniqueTables_aux_firstName (evs : List RouletteEvent) :
    ∀ (acc : List (String × String)) (tid name : String),
      (tid, name) ∈ evs.foldl
        (fun acc e =>
          if acc.any (fun p => p.1 == e.data.table.id) then acc
          else acc ++ [(e.data.table.id, e.data.table.name)]) acc →
      (tid, name) ∈ acc ∨
        ((∀ p ∈ acc, p.1 ≠ tid) ∧ firstNameFor evs tid = some name) := by
  induction evs with
  | nil => intro acc tid name h; exact Or.inl h
  | cons e rest ih =>
    intro acc tid name h
    rw [List.foldl_cons] at h
    by_cases hc : acc.any (fun p => p.1 == e.data.table.id)
    · rw [if_pos hc] at h
      rcases ih acc tid name h with hmem | ⟨hnone, hfn⟩
      · exact Or.inl hmem
      · refine Or.inr ⟨hnone, ?_⟩
        have hne : (e.data.table.id == tid) = false := by
          simp only [beq_eq_false_iff_ne, ne_eq]
          intro heq
          rcases List.any_eq_true.mp hc with ⟨p, hp, hpe⟩
          rw [beq_iff_eq] at hpe
          exact hnone p hp (by rw [hpe, heq])
        rw [firstNameFor] at hfn ⊢
        simp only [List.find?, hne]
        exact hfn
    · rw [if_neg hc] at h
      rcases ih _ tid name h with hmem | ⟨hnone, hfn⟩
      · rcases List.mem_append.mp hmem with hmem | hmem
        · exact Or.inl hmem
        · rw [List.mem_singleton, Prod.mk.injEq] at hmem
          obtain ⟨rfl, rfl⟩ := hmem
          refine Or.inr ⟨?_, ?_⟩
          · intro p hp heq
            exact hc (List.any_eq_true.mpr ⟨p, hp, by rw [beq_iff_eq]; exact heq⟩)
          · rw [firstNameFor]
            simp [List.find?]
      · have hacc : ∀ p ∈ acc, p.1 ≠ tid :=
          fun p hp => hnone p (List.mem_append_left _ hp)
        have hne : (e.data.table.id == tid) = false := by
          simp only [beq_eq_false_iff_ne, ne_eq]
          intro heq
          exact hnone (e.data.table.id, e.data.table.name)
            (List.mem_append_right _ (List.mem_singleton_self _)) heq
        refine Or.inr ⟨hacc, ?_⟩
        rw [firstNameFor] at hfn ⊢
        simp only [List.find?, hne]
        exact hfn

theorem uniqueTables_firstName {evs : List RouletteEvent} {tid name : String}
    (h : (tid, name) ∈ uniqueTables evs) : firstNameFor evs tid = some name := by
  rcases uniqueTables_aux_firstName evs [] tid name h with hmem | ⟨_, hfn⟩
  · cases hmem
  · exact hfn

theorem getOrCreateCasino_ops (st : Store) (now : Int) (tid name : String) :
    ∀ op ∈ (getOrCreateCasino st now tid name).2.1, isWatermarkQuery op = false := by
  intro op hop
  rw [getOrCreateCasino] at hop
  cases hf : st.casinos.find? (fun c => c.table_id == tid && c.table_name == name) with
  | some c =>
    rw [hf] at hop
    simp only [List.mem_singleton] at hop
    subst hop
    rfl
  | none =>
    rw [hf] at hop
    by_cases hconf : st.casinos.any (fun c => c.table_id == tid)
    · rw [if_pos hconf] at hop
      rcases List.mem_cons.mp hop with rfl | hop
      · rfl
      · rw [List.mem_singleton] at hop; subst hop; rfl
    · rw [if_neg hconf] at hop
      rcases List.mem_cons.mp hop with rfl | hop
      · rfl
      · rw [List.mem_singleton] at hop; subst hop; rfl

theorem resolveCasinos_ops (now : Int) :
    ∀ (pairs : List (String × String)) (st : Store),
      ∀ op ∈ (resolveCasinos now pairs st).2.1, isWatermarkQuery op = false := by
  intro pairs
  induction pairs with
  | nil => intro st op hop; cases hop
  | cons pair rest ih =>
    intro st op hop
    obtain ⟨tid, name⟩ := pair
    rcases hg : getOrCreateCasino st now tid name with ⟨st1, ops1, r1⟩
    have hops1 : ∀ o ∈ ops1, isWatermarkQuery o = false := by
      intro o ho
      have := getOrCreateCasino_ops st now tid name o
      rw [hg] at this
      exact this ho
    cases r1 with
    | error e =>
      rw [resolveCasinos, hg] at hop
      simp only at hop
      exact hops1 op hop
    | ok cid =>
      rcases hr : resolveCasinos now rest st1 with ⟨st2, ops2, r2⟩
      have hops2 : ∀ o ∈ ops2, isWatermarkQuery o = false := by
        intro o ho
        have := ih st1 o
        rw [hr] at this
        exact this ho
      cases r2 with
      | ok cache =>
        rw [resolveCasinos, hg] at hop
        simp only [hr] at hop
        rcases List.mem_append.mp hop with hop | hop
        · exact hops1 op hop
        · exact hops2 op hop
      | error e =>
        rw [resolveCasinos, hg] at hop
        simp only [hr] at hop
        rcases List.mem_append.mp hop with hop | hop
        · exact hops1 op hop
        · exact hops2 op hop

theorem processValidated_none {st : Store} {now : Int} {evs : List RouletteEvent}
    (h : filterEvents (resolveWatermarks st (uniqueTableIds evs)) evs = []) :
    processValidated st now evs =
      { result := .ok 0, store := st,
        ops := (uniqueTableIds evs).map Op.watermarkQuery } := by
  rw [processValidated]
  simp only [h, List.length_nil]
  rfl

theorem processValidated_ok_inv {st : Store} {now : Int} {evs : List RouletteEvent}
    {n : Nat} (h : (processValidated st now evs).result = .ok n) :
    (filterEvents (resolveWatermarks st (uniqueTableIds evs)) evs = [] ∧ n = 0 ∧
       (processValidated st now evs).store = st) ∨
    (∃ st1 ops1 cache rows,
       resolveCasinos now
           (uniqueTables (filterEvents (resolveWatermarks st (uniqueTableIds evs)) evs)) st =
         (st1, ops1, .ok cache) ∧
       buildFactRows cache now (filterEvents (resolveWatermarks st (uniqueTableIds evs)) evs) =
         .ok rows ∧
       n = (filterEvents (resolveWatermarks st (uniqueTableIds evs)) evs).length ∧
       ((0 < rows.length ∧
           (processValidated st now evs).store =
             { casinos := st1.casinos, facts := insertFacts st1.facts rows,
               nextCasinoId := st1.nextCasinoId }) ∨
        (rows.length = 0 ∧ (processValidated st now evs).store = st1))) := by
  by_cases hnil : filterEvents (resolveWatermarks st (uniqueTableIds evs)) evs = []
  · rw [processValidated_none hnil] at h ⊢
    injection h with h
    exact Or.inl ⟨hnil, h.symm, rfl⟩
  · refine Or.inr ?_
    have hlen : ((filterEvents (resolveWatermarks st (uniqueTableIds evs)) evs).length == 0) = false := by
      simp only [beq_eq_false_iff_ne, ne_eq, List.length_eq_zero]
      exact hnil
    rcases hres : resolveCasinos now
        (uniqueTables (filterEvents (resolveWatermarks st (uniqueTableIds evs)) evs)) st with
      ⟨st1, ops1, r1⟩
    cases r1 with
    | error e =>
      rw [processValidated] at h
      simp only [hlen, Bool.false_eq_true, if_false, hres] at h
      exact Except.noConfusion h
    | ok cache =>
      cases hb : buildFactRows cache now
          (filterEvents (resolveWatermarks st (uniqueTableIds evs)) evs) with
      | error e =>
        rw [processValidated] at h
        simp only [hlen, Bool.false_eq_true, if_false, hres, hb] at h
        exact Except.noConfusion h
      | ok rows =>
        refine ⟨st1, ops1, cache, rows, rfl, hb, ?_, ?_⟩
        · rw [processValidated] at h
          simp only [hlen, Bool.false_eq_true, if_false, hres, hb] at h
          by_cases hrl : 0 < rows.length
          · rw [if_pos hrl] at h
            injection h with h
            exact h.symm
          · rw [if_neg hrl] at h
            injection h with h
            exact h.symm
        · by_cases hrl : 0 < rows.length
          · refine Or.inl ⟨hrl, ?_⟩
            rw [processValidated]
            simp only [hlen, Bool.false_eq_true, if_false, hres, hb, if_pos hrl]
          · refine Or.inr ⟨by omega, ?_⟩
            rw [processValidated]
            simp only [hlen, Bool.false_eq_true, if_false, hres, hb, if_neg hrl]

theorem processValidated_wm_ops (st : Store) (now : Int) (evs : List RouletteEvent) :
    (processValidated st now evs).ops.filter isWatermarkQuery =
      (uniqueTableIds evs).map Op.watermarkQuery := by
  have hwm : ((uniqueTableIds evs).map Op.watermarkQuery).filter isWatermarkQuery =
      (uniqueTableIds evs).map Op.watermarkQuery := by
    rw [List.filter_eq_self]
    intro op hop
    rcases List.mem_map.mp hop with ⟨tid, _, rfl⟩
    rfl
  by_cases hnil : filterEvents (resolveWatermarks st (uniqueTableIds evs)) evs = []
  · rw [processValidated_none hnil]
    exact hwm
  · have hlen : ((filterEvents (resolveWatermarks st (uniqueTableIds evs)) evs).length == 0) = false := by
      simp only [beq_eq_false_iff_ne, ne_eq, List.length_eq_zero]
      exact hnil
    rcases hres : resolveCasinos now
        (uniqueTables (filterEvents (resolveWatermarks st (uniqueTableIds evs)) evs)) st with
      ⟨st1, ops1, r1⟩
    have hops1 : ops1.filter isWatermarkQuery = [] := by
      rw [List.filter_eq_nil_iff]
      intro a ha
      have hall := resolveCasinos_ops now
        (uniqueTables (filterEvents (resolveWatermarks st (uniqueTableIds evs)) evs)) st
      rw [hres] at hall
      rw [hall a ha]
      simp
    cases r1 with
    | error e =>
      rw [processValidated]
      simp only [hlen, Bool.false_eq_true, if_false, hres]
      rw [List.filter_append, hwm, hops1, List.append_nil]
    | ok cache =>
      cases hb : buildFactRows cache now
          (filterEvents (resolveWatermarks st (uniqueTableIds evs)) evs) with
      | error e =>
        rw [processValidated]
        simp only [hlen, Bool.false_eq_true, if_false, hres, hb]
        rw [List.filter_append, hwm, hops1, List.append_nil]
      | ok rows =>
        rw [processValidated]
        simp only [hlen, Bool.false_eq_true, if_false, hres, hb]
        by_cases hrl : 0 < rows.length
        · rw [if_pos hrl]
          show ((uniqueTableIds evs).map Op.watermarkQuery ++ ops1 ++
            [Op.factBulkInsert rows]).filter isWatermarkQuery = _
          rw [List.filter_append, List.filter_append, hwm, hops1]
          simp [isWatermarkQuery]
        · rw [if_neg hrl]
          show ((uniqueTableIds evs).map Op.watermarkQuery ++ ops1).filter isWatermarkQuery = _
          rw [List.filter_append, hwm, hops1, List.append_nil]

theorem lookupCache_of_key {cache : List (String × Nat)} {tid : String}
    (h : tid ∈ cache.map Prod.fst) :
    ∃ cid, lookupCache cache tid = some cid ∧ (tid, cid) ∈ cache := by
  induction cache with
  | nil => cases h
  | cons p rest ih =>
    by_cases hp : p.1 = tid
    · refine ⟨p.2, ?_, ?_⟩
      · rw [lookupCache]
        have hb : (p.1 == tid) = true := by rw [beq_iff_eq]; exact hp
        simp only [List.find?, hb]
        rfl
      · rw [← hp]
        exact List.mem_cons_self p rest
    · have htid : tid ∈ rest.map Prod.fst := by
        rcases List.mem_cons.mp h with heq | hmem
        · exact absurd heq.symm hp
        · exact hmem
      obtain ⟨cid, hlk, hmem⟩ := ih htid
      refine ⟨cid, ?_, List.mem_cons_of_mem p hmem⟩
      rw [lookupCache]
      have hb : (p.1 == tid) = false := by simp [hp]
      simp only [List.find?, hb]
      exact hlk

theorem lookupCache_mem {cache : List (String × Nat)} {tid : String} {cid : Nat}
    (h : lookupCache cache tid = some cid) : (tid, cid) ∈ cache := by
  rw [lookupCache] at h
  cases hf : cache.find? (fun p => p.1 == tid) with
  | none => rw [hf] at h; cases h
  | some p =>
    rw [hf] at h
    injection h with h
    have hp := List.find?_some hf
    rw [beq_iff_eq] at hp
    have hm := List.mem_of_find?_eq_some hf
    have : p = (tid, cid) := by
      rcases p with ⟨a, b⟩
      simp only at hp h
      rw [hp, h]
    rw [← this]
    exact hm

theorem second_run_filter_empty {st0 : Store} {now1 : Int} {evs : List RouletteEvent}
    {n : Nat}
    (hids : (evs.map (fun e => e.data.id)).Nodup)
    (hfresh : ∀ e ∈ evs, ∀ f ∈ st0.facts, ¬ f.event_id = e.data.id)
    (hok : (processValidated st0 now1 evs).result = .ok n) :
    filterEvents
      (resolveWatermarks (processValidated st0 now1 evs).store (uniqueTableIds evs))
      evs = [] := by
  by_cases hnil : filterEvents (resolveWatermarks st0 (uniqueTableIds evs)) evs = []
  · rw [processValidated_none hnil]
    exact hnil
  · rcases processValidated_ok_inv hok with ⟨hnil2, _, _⟩ | hinr
    · exact absurd hnil2 hnil
    obtain ⟨st1, ops1, cache, rows, hres, hb, hn, hstore⟩ := hinr
    obtain ⟨hlen, hidsmap, hzip⟩ := buildFactRows_ok hb
    obtain ⟨hfacts1, hcas1, hcache, hkeys, _⟩ := resolveCasinos_ok hres
    have hTlen : filterEvents (resolveWatermarks st0 (uniqueTableIds evs)) evs ≠ [] := hnil
    rcases hstore with ⟨hpos, hstore⟩ | ⟨hzero, _⟩
    swap
    · exact absurd (List.length_eq_zero.mp (hlen ▸ hzero)) hTlen
    have hsubT : ∀ e ∈ filterEvents (resolveWatermarks st0 (uniqueTableIds evs)) evs, e ∈ evs :=
      fun e he => (mem_filterEvents.mp he).1
    have hnodupR : (rows.map (fun r => r.event_id)).Nodup := by
      rw [hidsmap]
      exact List.Nodup.sublist
        (List.Sublist.map _ (List.filter_sublist (l := evs) (p := passesFilter _))) hids
    have hfreshR : ∀ r ∈ rows, ∀ f ∈ st1.facts, ¬ f.event_id = r.event_id := by
      intro r hr f hf
      have hre : r.event_id ∈ rows.map (fun r => r.event_id) := List.mem_map_of_mem _ hr
      rw [hidsmap] at hre
      rcases List.mem_map.mp hre with ⟨e, he, heid⟩
      rw [← heid]
      rw [hfacts1] at hf
      exact hfresh e (hsubT e he) f hf
    have hSfacts : (processValidated st0 now1 evs).store.facts = st0.facts ++ rows := by
      rw [hstore]
      show insertFacts st1.facts rows = st0.facts ++ rows
      rw [insertFacts_append hnodupR hfreshR, hfacts1]
    have hScas : (processValidated st0 now1 evs).store.casinos = st1.casinos := by
      rw [hstore]
    rw [filterEvents, List.filter_eq_nil_iff]
    intro e he hpass
    have htid : e.data.table.id ∈ uniqueTableIds evs := by
      rw [uniqueTableIds, mem_uniqueFirst]
      exact List.mem_map_of_mem _ he
    rw [passesFilter_iff, lookupWatermark_resolve htid] at hpass
    obtain ⟨hstatus, hcase⟩ := hpass
    by_cases hpf : passesFilter (resolveWatermarks st0 (uniqueTableIds evs)) e = true
    · -- the event was in the first run's to-ingest set: its fact is now persisted
      have heT : e ∈ filterEvents (resolveWatermarks st0 (uniqueTableIds evs)) evs :=
        mem_filterEvents.mpr ⟨he, hpf⟩
      obtain ⟨r, hzr⟩ := exists_zip_of_mem hlen.symm heT
      obtain ⟨hrid, hrset, _, hrlk⟩ := hzip (e, r) hzr
      have hrmem : r ∈ rows := (List.of_mem_zip hzr).2
      have hrS : r ∈ (processValidated st0 now1 evs).store.facts := by
        rw [hSfacts]
        exact List.mem_append_right _ hrmem
      have hft : factInTable (processValidated st0 now1 evs).store e.data.table.id r = true := by
        rw [factInTable, hScas]
        obtain ⟨c, hc, hcid, hctid⟩ := hcache _ (lookupCache_mem hrlk)
        refine List.any_eq_true.mpr ⟨c, hc, ?_⟩
        simp only [Bool.and_eq_true, beq_iff_eq]
        exact ⟨hcid, hctid⟩
      obtain ⟨w, hw, hle⟩ := latestSettledAt_le hrS hft
      rw [hw] at hcase
      rcases hcase with hcase | ⟨w', hw', hlt⟩
      · cases hcase
      · injection hw' with hw'
        subst hw'
        rw [hrset] at hle
        exact absurd hlt (not_lt.mpr hle)
    · -- the event was already blocked by the first run's watermark
      rw [passesFilter_iff, lookupWatermark_resolve htid] at hpf
      push_neg at hpf
      have hblock := hpf hstatus
      cases hl0 : latestSettledAt st0 e.data.table.id with
      | none => exact absurd hl0 (hblock.1)
      | some w0 =>
        have hle0 : e.data.settledAt ≤ w0 := by
          have := hblock.2 w0 hl0
          omega
        have hmono : ∃ w1, latestSettledAt (processValidated st0 now1 evs).store
            e.data.table.id = some w1 ∧ w0 ≤ w1 := by
          refine latestSettledAt_mono ?_ ?_ hl0
          · intro f hf
            rw [hSfacts]
            exact List.mem_append_left _ hf
          · intro c hc
            rw [hScas]
            exact hcas1 c hc
        obtain ⟨w1, hw1, hle1⟩ := hmono
        rw [hw1] at hcase
        rcases hcase with hcase | ⟨w', hw', hlt⟩
        · cases hcase
        · injection hw' with hw'
          subst hw'
          omega

theorem bindE_ok_inv {ε α β : Type} {e : Except ε α} {f : α → Except ε β} {b : β}
    (h : (e >>= f) = .ok b) : ∃ a, e = .ok a ∧ f a = .ok b := by
  cases e with
  | error m => exact Except.noConfusion h
  | ok a => exact ⟨a, rfl, h⟩

theorem requireField_ok {j : Json} {key : String} {v : Json} :
    requireField j key = .ok v ↔ j.getField key = some v := by
  rw [requireField]
  cases h : j.getField key <;> simp

theorem parseString_ok {j : Json} {s : String} :
    parseString j = .ok s ↔ j = .str s := by
  cases j <;> simp [parseString]

theorem parseOutcome_fields {o : Json} {out : RouletteOutcome}
    (h : parseOutcome o = .ok out) :
    ∃ t c, o.getField "type" = some (.str t) ∧ o.getField "color" = some (.str c) ∧
      (t == "Even" || t == "Odd") = true ∧
      (c == "Red" || c == "Black" || c == "Green") = true := by
  rw [parseOutcome] at h
  obtain ⟨jn, _, h⟩ := bindE_ok_inv h
  obtain ⟨nv, _, h⟩ := bindE_ok_inv h
  obtain ⟨jt, hjt, h⟩ := bindE_ok_inv h
  obtain ⟨t, hts, h⟩ := bindE_ok_inv h
  by_cases ht : (t == "Even" || t == "Odd") = true
  · rw [if_pos ht] at h
    obtain ⟨jc, hjc, h⟩ := bindE_ok_inv h
    obtain ⟨c, hcs, h⟩ := bindE_ok_inv h
    by_cases hc : (c == "Red" || c == "Black" || c == "Green") = true
    · refine ⟨t, c, ?_, ?_, ht, hc⟩
      · rw [← (parseString_ok.mp hts)]
        exact requireField_ok.mp hjt
      · rw [← (parseString_ok.mp hcs)]
        exact requireField_ok.mp hjc
    · rw [if_neg hc] at h
      exact Except.noConfusion h
  · rw [if_neg ht] at h
    exact Except.noConfusion h

theorem parseResult_outcome {r : Json} {res : RouletteResult}
    (h : parseResult r = .ok res) :
    ∃ o, r.getField "outcome" = some o ∧ parseOutcome o = .ok res.outcome := by
  rw [parseResult] at h
  obtain ⟨jo, hjo, h⟩ := bindE_ok_inv h
  obtain ⟨out, hout, h⟩ := bindE_ok_inv h
  cases hl : r.getField "luckyNumbersList" with
  | none =>
    rw [hl] at h
    injection h with h
    exact ⟨jo, requireField_ok.mp hjo, by rw [← h]; exact hout⟩
  | some lj =>
    rw [hl] at h
    cases lj with
    | arr elems =>
      obtain ⟨lucky, _, h⟩ := bindE_ok_inv h
      injection h with h
      exact ⟨jo, requireField_ok.mp hjo, by rw [← h]; exact hout⟩
    | null => exact Except.noConfusion h
    | bool b => exact Except.noConfusion h
    | num n => exact Except.noConfusion h
    | str s => exact Except.noConfusion h
    | obj fields => exact Except.noConfusion h

theorem parseData_result {d : Json} {data : RouletteData}
    (h : parseData d = .ok data) :
    ∃ r, d.getField "result" = some r ∧ parseResult r = .ok data.result := by
  rw [parseData] at h
  obtain ⟨j1, _, h⟩ := bindE_ok_inv h
  obtain ⟨id, _, h⟩ := bindE_ok_inv h
  obtain ⟨j2, _, h⟩ := bindE_ok_inv h
  obtain ⟨startedAt, _, h⟩ := bindE_ok_inv h
  obtain ⟨j3, _, h⟩ := bindE_ok_inv h
  obtain ⟨settledAt, _, h⟩ := bindE_ok_inv h
  obtain ⟨j4, _, h⟩ := bindE_ok_inv h
  obtain ⟨status, _, h⟩ := bindE_ok_inv h
  obtain ⟨j5, _, h⟩ := bindE_ok_inv h
  obtain ⟨gameType, _, h⟩ := bindE_ok_inv h
  obtain ⟨j6, _, h⟩ := bindE_ok_inv h
  obtain ⟨table, _, h⟩ := bindE_ok_inv h
  obtain ⟨jr, hjr, h⟩ := bindE_ok_inv h
  obtain ⟨res, hres, h⟩ := bindE_ok_inv h
  injection h with h
  exact ⟨jr, requireField_ok.mp hjr, by rw [← h]; exact hres⟩

theorem parseEvent_data {x : Json} {e : RouletteEvent}
    (h : parseEvent x = .ok e) :
    ∃ d, x.getField "data" = some d ∧ parseData d = .ok e.data := by
  rw [parseEvent] at h
  obtain ⟨j1, _, h⟩ := bindE_ok_inv h
  obtain ⟨id, _, h⟩ := bindE_ok_inv h
  obtain ⟨jd, hjd, h⟩ := bindE_ok_inv h
  obtain ⟨data, hdata, h⟩ := bindE_ok_inv h
  injection h with h
  exact ⟨jd, requireField_ok.mp hjd, by rw [← h]; exact hdata⟩

theorem parseEvent_validEnums {x : Json} {e : RouletteEvent}
    (h : parseEvent x = .ok e) : hasValidOutcomeEnums x = true := by
  obtain ⟨d, hd, hdata⟩ := parseEvent_data h
  obtain ⟨r, hr, hres⟩ := parseData_result hdata
  obtain ⟨o, ho, hout⟩ := parseResult_outcome hres
  obtain ⟨t, c, ht, hc, htv, hcv⟩ := parseOutcome_fields hout
  rw [hasValidOutcomeEnums]
  simp only [hd, hr, ho, Option.bind_eq_bind, Option.some_bind]
  rw [ht, hc]
  simp only [htv, hcv, Bool.and_self]

theorem parseElems_error_of_mem {α : Type} {p : Json → Except String α}
    {l : List Json} {x : Json} (hx : x ∈ l) (hbad : ∀ a, ¬ p x = .ok a) :
    ∃ msg, parseElems p l = .error msg := by
  induction l with
  | nil => cases hx
  | cons y ys ih =>
    rcases List.mem_cons.mp hx with rfl | hx
    · cases hp : p x with
      | error m => exact ⟨m, by simp [parseElems, hp, Bind.bind, Except.bind]⟩
      | ok a => exact absurd hp (hbad a)
    · cases hp : p y with
      | error m => exact ⟨m, by simp [parseElems, hp, Bind.bind, Except.bind]⟩
      | ok a =>
        obtain ⟨msg, hmsg⟩ := ih hx
        exact ⟨msg, by simp [parseElems, hp, hmsg, Bind.bind, Except.bind]⟩

theorem parseRouletteEvents_error_of_badEnum {l : List Json} {x : Json}
    (hx : x ∈ l) (hbad : hasValidOutcomeEnums x = false) :
    ∃ msg, parseRouletteEvents (Json.arr l) = .error msg := by
  rw [parseRouletteEvents]
  refine parseElems_error_of_mem hx ?_
  intro e he
  rw [parseEvent_validEnums he] at hbad
  exact Bool.noConfusion hbad

theorem parseRouletteEvents_not_array {j : Json} (h : j.isArray = false) :
    parseRouletteEvents j = .error "Expected array" := by
  cases j with
  | arr elems => exact absurd h (by rw [Json.isArray]; simp)
  | null => rfl
  | bool b => rfl
  | num n => rfl
  | str s => rfl
  | obj fields => rfl

theorem processRouletteData_validation_error {st : Store} {now : Int} {payload : Json}
    {msg : String} (h : parseRouletteEvents payload = .error msg) :
    processRouletteData st now payload =
      { result := .error (.validationError msg), store := st, ops := [] } := by
  rw [processRouletteData, h]

/-! Claim theorems. -/

/-- C1: for every validated batch and every watermark mapping, an event is
in the to-ingest set iff its status string equals the literal `"Resolved"`
and either the mapping has no entry for its partition id or its settlement
timestamp is strictly greater than that partition's watermark; the filter
is a total function, so events failing either condition are dropped
without error. -/
theorem c1_filter_admission (wm : List (String × Int)) (events : List RouletteEvent)
    (e : RouletteEvent) :
    e ∈ filterEvents wm events ↔
      e ∈ events ∧ e.data.status = "Resolved" ∧
        (lookupWatermark wm e.data.table.id = none ∨
         ∃ w, lookupWatermark wm e.data.table.id = some w ∧ w < e.data.settledAt) := by
  rw [mem_filterEvents, passesFilter_iff]

/-- C8: when the to-ingest set is empty the pipeline returns
`{processed: 0}`, leaves the store unchanged, and the only operations it
has issued are the watermark lookups — no dimension lookup-or-create and
no fact insert (in particular no empty bulk insert). -/
theorem c8_empty_short_circuit (st : Store) (now : Int) (events : List RouletteEvent)
    (h : filterEvents (resolveWatermarks st (uniqueTableIds events)) events = []) :
    (processValidated st now events).result = .ok 0 ∧
    (processValidated st now events).store = st ∧
    ∀ op ∈ (processValidated st now events).ops, ∃ tid, op = Op.watermarkQuery tid := by
  rw [processValidated_none h]
  refine ⟨rfl, rfl, ?_⟩
  intro op hop
  rcases List.mem_map.mp hop with ⟨tid, _, rfl⟩
  exact ⟨tid, rfl⟩

/-- C8 witness: a batch whose only event is not `"Resolved"` short-circuits. -/
theorem c8_witness :
    (processValidated emptyStore 50 batchPending).result = .ok 0 ∧
    (processValidated emptyStore 50 batchPending).store = emptyStore ∧
    ∀ op ∈ (processValidated emptyStore 50 batchPending).ops,
      ∃ tid, op = Op.watermarkQuery tid :=
  c8_empty_short_circuit emptyStore 50 batchPending (by decide)

/-- C5 counterexample: with a dimension row `(table_id "1", name "A")`
already persisted, ingesting an event for `("1", "B")` misses the
pair-lookup, hits the `UNIQUE (table_id)` constraint on the insert, and the
run aborts with a storage error — the resolver does not recover by
re-fetching, contradicting the claim that the run continues. -/
theorem c5_counterexample :
    (processValidated storeDimA 10 [eventDimB]).result =
      .error (.storageError
        "duplicate key value violates unique constraint casino_table_id_key") := by
  decide

/-- C5 (amended): when the dimension insert hits the store's natural-key
uniqueness constraint, the violation is returned as a storage error by the
get-or-create step and propagates unchanged through the resolver — no
re-fetch recovery exists and the run aborts. -/
theorem c5_conflict_propagates (st : Store) (now : Int) (tid name : String)
    (rest : List (String × String))
    (hmiss : st.casinos.find? (fun c => c.table_id == tid && c.table_name == name) = none)
    (hconf : st.casinos.any (fun c => c.table_id == tid) = true) :
    getOrCreateCasino st now tid name =
      (st, [Op.casinoSelect tid name, Op.casinoInsert tid name],
       .error (.storageError
         "duplicate key value violates unique constraint casino_table_id_key")) ∧
    resolveCasinos now ((tid, name) :: rest) st =
      (st, [Op.casinoSelect tid name, Op.casinoInsert tid name],
       .error (.storageError
         "duplicate key value violates unique constraint casino_table_id_key")) := by
  have hg : getOrCreateCasino st now tid name =
      (st, [Op.casinoSelect tid name, Op.casinoInsert tid name],
       .error (.storageError
         "duplicate key value violates unique constraint casino_table_id_key")) := by
    rw [getOrCreateCasino, hmiss, if_pos hconf]
  refine ⟨hg, ?_⟩
  rw [resolveCasinos, hg]

/-- C5 witness: the conflict case at a concrete store. -/
theorem c5_witness :
    getOrCreateCasino storeDimA 10 "1" "B" =
      (storeDimA, [Op.casinoSelect "1" "B", Op.casinoInsert "1" "B"],
       .error (.storageError
         "duplicate key value violates unique constraint casino_table_id_key")) ∧
    resolveCasinos 10 [("1", "B")] storeDimA =
      (storeDimA, [Op.casinoSelect "1" "B", Op.casinoInsert "1" "B"],
       .error (.storageError
         "duplicate key value violates unique constraint casino_table_id_key")) :=
  c5_conflict_propagates storeDimA 10 "1" "B" [] (by decide) (by decide)

/-- C6: the retention delete itself is right — it removes exactly the fact
rows older than now minus 3 calendar months and touches nothing else, and
the route variant returns that count — but the script variant
`cleanup-old-roulette-events.js` returns `deleteResult.length`, the length
of the row list of a `DELETE` without `RETURNING`, which is always `0`:
at a store holding a fact from 2025-06-11 and one from 2025-09-11, pruning
on 2025-10-11 deletes the old row yet the script reports `{deleted: 0}`.
The general conjuncts characterise the shared delete. -/
theorem c6_retention_eval :
    (cleanupOldRouletteEventsScript storeRetention retentionNow).2 = 0 ∧
    ((cleanupOldRouletteEventsScript storeRetention retentionNow).1.facts.map
      (fun f => f.event_id)) = ["youngF"] ∧
    (cleanupOldRouletteEventsScript storeRetention retentionNow).1.casinos =
      storeRetention.casinos ∧
    (cleanupOldRouletteEventsRoute storeRetention retentionNow).2 = 1 ∧
    (∀ (st : Store) (t : CivilTime) (f : FactRow),
       f ∈ (cleanupOldRouletteEventsRoute st t).1.facts ↔
         f ∈ st.facts ∧ threeMonthsAgoEpoch t ≤ f.created_at) ∧
    (∀ (st : Store) (t : CivilTime),
       (cleanupOldRouletteEventsRoute st t).1.casinos = st.casinos ∧
       (cleanupOldRouletteEventsRoute st t).2 +
         (cleanupOldRouletteEventsRoute st t).1.facts.length = st.facts.length ∧
       (cleanupOldRouletteEventsScript st t).1 = (cleanupOldRouletteEventsRoute st t).1 ∧
       (cleanupOldRouletteEventsScript st t).2 = 0) := by
  refine ⟨by decide, by decide, by decide, by decide, ?_, ?_⟩
  · intro st t f
    rw [cleanupOldRouletteEventsRoute]
    show f ∈ (deleteOldFacts st (threeMonthsAgoEpoch t)).1.facts ↔ _
    rw [deleteOldFacts]
    simp only [List.mem_filter, decide_eq_true_eq]
  · intro st t
    refine ⟨rfl, ?_, rfl, rfl⟩
    show st.facts.length -
        (st.facts.filter (fun f => decide (threeMonthsAgoEpoch t ≤ f.created_at))).length +
        (st.facts.filter (fun f => decide (threeMonthsAgoEpoch t ≤ f.created_at))).length =
      st.facts.length
    have hle := List.length_filter_le
      (fun f => decide (threeMonthsAgoEpoch t ≤ f.created_at)) st.facts
    omega

/-- C2 counterexample: the score-route variant cited by the claim does not
produce the claimed per-partition mapping.  With one fact settled at 10 in
partition "A" and none in "B", the claimed mapping has no entry for "B"
and the script pipeline admits a "B" event settled at 5, but the route
variant computes the single global maximum 10 and drops that event. -/
theorem c2_counterexample :
    lookupWatermark (resolveWatermarks storePartA (uniqueTableIds [eventPartB])) "B" = none ∧
    filterEvents (resolveWatermarks storePartA (uniqueTableIds [eventPartB])) [eventPartB] =
      [eventPartB] ∧
    routeLatestSettledAt storePartA = some 10 ∧
    routeResolvedEvents storePartA [eventPartB] = [] := by
  decide

/-- C2 (amended): the script pipeline's watermark resolver behaves exactly
as the claim states — the mapping's entry for a queried partition id is the
maximum settlement timestamp among the persisted facts of that partition
through the dimension join, a partition with no persisted facts has no
entry, and one watermark lookup is issued per distinct partition id of the
batch; the score-route variant instead issues a single global `MAX` with no
per-partition mapping. -/
theorem c2_watermark_resolver :
    (∀ (st : Store) (tids : List String) (tid : String), tid ∈ tids →
       lookupWatermark (resolveWatermarks st tids) tid = latestSettledAt st tid) ∧
    (∀ (st : Store) (tids : List String) (tid : String) (w : Int),
       (tid, w) ∈ resolveWatermarks st tids → latestSettledAt st tid = some w) ∧
    (∀ (st : Store) (tid : String),
       latestSettledAt st tid = none ↔ ∀ f ∈ st.facts, factInTable st tid f = false) ∧
    (∀ (st : Store) (tid : String) (w : Int), latestSettledAt st tid = some w →
       (∃ f ∈ st.facts, factInTable st tid f = true ∧ f.settled_at = w) ∧
       (∀ f ∈ st.facts, factInTable st tid f = true → f.settled_at ≤ w)) ∧
    (∀ (st : Store) (now : Int) (evs : List RouletteEvent),
       (processValidated st now evs).ops.filter isWatermarkQuery =
         (uniqueTableIds evs).map Op.watermarkQuery) ∧
    (∀ evs : List RouletteEvent, (uniqueTableIds evs).Nodup) ∧
    (∀ (evs : List RouletteEvent) (tid : String),
       tid ∈ uniqueTableIds evs ↔ tid ∈ evs.map (fun e => e.data.table.id)) := by
  refine ⟨?_, ?_, ?_, ?_, ?_, ?_, ?_⟩
  · intro st tids tid h
    exact lookupWatermark_resolve h
  · intro st tids tid w h
    exact resolveWatermarks_entry h
  · intro st tid
    exact latestSettledAt_none_iff
  · intro st tid w h
    exact ⟨latestSettledAt_some_witness h, latestSettledAt_ub h⟩
  · intro st now evs
    exact processValidated_wm_ops st now evs
  · intro evs
    exact uniqueFirst_nodup _
  · intro evs tid
    exact mem_uniqueFirst

/-- C2 witness: the per-partition lookup at a concrete store and batch. -/
theorem c2_witness :
    lookupWatermark (resolveWatermarks storePartA ["A", "B"]) "A" =
      latestSettledAt storePartA "A" ∧
    latestSettledAt storePartA "A" = some 10 :=
  ⟨c2_watermark_resolver.1 storePartA ["A", "B"] "A" (by decide), by decide⟩

/-- C3 counterexample: from an empty store, a payload whose two elements
share the inner data id "x" (with different settlement times and display
names) makes the first run succeed with `{processed: 2}` while only the
earlier row is inserted; the second run with the same payload re-admits the
skipped element past the watermark, re-resolves its dimension under the
display name "Q", hits the `UNIQUE (table_id)` constraint, and aborts with
a storage error instead of returning a processed count. -/
theorem c3_counterexample :
    (processValidated emptyStore 100 batchDupId).result = .ok 2 ∧
    (processValidated (processValidated emptyStore 100 batchDupId).store 200 batchDupId).result =
      .error (.storageError
        "duplicate key value violates unique constraint casino_table_id_key") := by
  exact ⟨by decide, by decide⟩

/-- C3 (amended): provided the payload's inner event ids are pairwise
distinct and none of them already occurs in the pre-run fact table, a
second run of the pipeline with the same payload from the store the first
successful run produced returns `{processed: 0}` and leaves the store —
in particular the fact table's row count — unchanged. -/
theorem c3_second_run_noop (st0 : Store) (now1 now2 : Int)
    (evs : List RouletteEvent) (n : Nat)
    (hids : (evs.map (fun e => e.data.id)).Nodup)
    (hfresh : ∀ e ∈ evs, ∀ f ∈ st0.facts, ¬ f.event_id = e.data.id)
    (hok : (processValidated st0 now1 evs).result = .ok n) :
    (processValidated (processValidated st0 now1 evs).store now2 evs).result = .ok 0 ∧
    (processValidated (processValidated st0 now1 evs).store now2 evs).store =
      (processValidated st0 now1 evs).store ∧
    (processValidated (processValidated st0 now1 evs).store now2 evs).store.facts.length =
      (processValidated st0 now1 evs).store.facts.length := by
  have hempty := second_run_filter_empty hids hfresh hok
  rw [processValidated_none hempty]
  exact ⟨rfl, rfl, rfl⟩

/-- C3 witness: re-running the spec scenario batch from an empty store. -/
theorem c3_witness :
    (processValidated (processValidated emptyStore 100 batchScenario).store
        200 batchScenario).result = .ok 0 ∧
    (processValidated (processValidated emptyStore 100 batchScenario).store
        200 batchScenario).store = (processValidated emptyStore 100 batchScenario).store ∧
    (processValidated (processValidated emptyStore 100 batchScenario).store
        200 batchScenario).store.facts.length =
      (processValidated emptyStore 100 batchScenario).store.facts.length :=
  c3_second_run_noop emptyStore 100 200 batchScenario 1 (by decide) (by decide) (by decide)

/-- C4 counterexample: the dimension resolver is keyed by partition id
alone, not by (partition id, display name) pair.  A to-ingest set holding
both `("1", "A")` and `("1", "B")` contains two distinct pairs, but the
resolver is invoked only for `("1", "A")` — the pair of the first event —
and never looks up `("1", "B")`. -/
theorem c4_counterexample :
    ("1", "B") ∈ specDistinctTablePairs
      (filterEvents (resolveWatermarks emptyStore (uniqueTableIds batchTwoNames))
        batchTwoNames) ∧
    Op.casinoSelect "1" "B" ∉ (processValidated emptyStore 100 batchTwoNames).ops ∧
    Op.casinoSelect "1" "A" ∈ (processValidated emptyStore 100 batchTwoNames).ops ∧
    uniqueTables
      (filterEvents (resolveWatermarks emptyStore (uniqueTableIds batchTwoNames))
        batchTwoNames) = [("1", "A")] := by
  decide

/-- C4 (amended): the resolver is invoked once per distinct partition id of
the to-ingest set (not per distinct pair), carrying the display name of the
first to-ingest event with that id; each invocation looks up both fields,
reuses the found surrogate id, and otherwise inserts a row capturing the
generated id; consequently, within a run, all facts sharing a partition id
(whatever their display name) reference the same surrogate dimension id. -/
theorem c4_resolver_per_partition_id :
    (∀ evs : List RouletteEvent, (uniqueTables evs).map Prod.fst = uniqueTableIds evs) ∧
    (∀ (evs : List RouletteEvent) (tid name : String),
       (tid, name) ∈ uniqueTables evs → firstNameFor evs tid = some name) ∧
    (∀ (st : Store) (now : Int) (tid name : String) (c : Casino),
       st.casinos.find? (fun c => c.table_id == tid && c.table_name == name) = some c →
       getOrCreateCasino st now tid name = (st, [Op.casinoSelect tid name], .ok c.id)) ∧
    (∀ (st : Store) (now : Int) (tid name : String),
       st.casinos.find? (fun c => c.table_id == tid && c.table_name == name) = none →
       st.casinos.any (fun c => c.table_id == tid) = false →
       getOrCreateCasino st now tid name =
         ({ casinos := st.casinos ++
              [{ id := st.nextCasinoId, table_id := tid, table_name := name,
                 created_at := now }],
            facts := st.facts, nextCasinoId := st.nextCasinoId + 1 },
          [Op.casinoSelect tid name, Op.casinoInsert tid name], .ok st.nextCasinoId)) ∧
    (∀ (cache : List (String × Nat)) (now : Int) (evs : List RouletteEvent)
       (rows : List FactRow),
       buildFactRows cache now evs = .ok rows →
       ∀ p ∈ evs.zip rows, ∀ q ∈ evs.zip rows,
         p.1.data.table.id = q.1.data.table.id → p.2.casino_id = q.2.casino_id) := by
  refine ⟨?_, ?_, ?_, ?_, ?_⟩
  · exact uniqueTables_fst
  · intro evs tid name h
    exact uniqueTables_firstName h
  · intro st now tid name c h
    rw [getOrCreateCasino, h]
  · intro st now tid name hmiss hconf
    rw [getOrCreateCasino, hmiss, if_neg (by rw [hconf]; exact Bool.false_ne_true)]
  · intro cache now evs rows h p hp q hq htid
    have hp' := ((buildFactRows_ok h).2.2 p hp).2.2.2
    have hq' := ((buildFactRows_ok h).2.2 q hq).2.2.2
    rw [htid, hq'] at hp'
    injection hp' with hp'
    exact hp'.symm

/-- C4 witness: the resolver invocation set at the two-name batch. -/
theorem c4_witness :
    (uniqueTables batchTwoNames).map Prod.fst = uniqueTableIds batchTwoNames ∧
    firstNameFor batchTwoNames "1" = some "A" :=
  ⟨c4_resolver_per_partition_id.1 batchTwoNames,
   c4_resolver_per_partition_id.2.1 batchTwoNames "1" "A" (by decide)⟩

/-- C7 counterexample: the duplicate validator of `src/unnamed/part_000`
(also named `RouletteOutcomeSchema`, cited by the claim) declares `type`
and `color` as plain strings, so a payload whose element carries the
out-of-enum color `"Purple"` passes its validation instead of being
rejected. -/
theorem c7_counterexample :
    hasValidOutcomeEnums elemBadColor = false ∧
    part000PayloadValid (Json.arr [elemBadColor]) = true := by
  decide

/-- C7 (amended): the strict validator of `src/app/api/scores/schemas.ts`
behaves as the claim states — a payload whose top-level shape is not an
array, or any of whose elements carries an outcome type outside
{"Even", "Odd"} or color outside {"Red", "Black", "Green"}, makes the
pipeline abort with a `ValidationError` leaving the store untouched and no
operation issued; the part_000 script's duplicate validator instead
accepts arbitrary strings in those positions. -/
theorem c7_strict_validation (st : Store) (now : Int) :
    (∀ j : Json, j.isArray = false →
       processRouletteData st now j =
         { result := .error (.validationError "Expected array"), store := st, ops := [] }) ∧
    (∀ (l : List Json) (x : Json), x ∈ l → hasValidOutcomeEnums x = false →
       ∃ msg, processRouletteData st now (Json.arr l) =
         { result := .error (.validationError msg), store := st, ops := [] }) := by
  constructor
  · intro j hj
    exact processRouletteData_validation_error (parseRouletteEvents_not_array hj)
  · intro l x hx hbad
    obtain ⟨msg, hmsg⟩ := parseRouletteEvents_error_of_badEnum hx hbad
    exact ⟨msg, processRouletteData_validation_error hmsg⟩

/-- C7 witness: the strict pipeline rejects a non-array payload and a
payload holding the `"Purple"`-colored element, leaving the store as it
was. -/
theorem c7_witness :
    processRouletteData emptyStore 100 (Json.str "nope") =
      { result := .error (.validationError "Expected array"), store := emptyStore,
        ops := [] } ∧
    ∃ msg, processRouletteData emptyStore 100 (Json.arr [elemBadColor]) =
      { result := .error (.validationError msg), store := emptyStore, ops := [] } :=
  ⟨(c7_strict_validation emptyStore 100).1 (Json.str "nope") rfl,
   (c7_strict_validation emptyStore 100).2 [elemBadColor] elemBadColor
     (List.mem_singleton_self elemBadColor) rfl⟩

/-- C9: under the precondition that dimension resolution succeeded for the
to-ingest set's distinct partition ids and returned a positive surrogate id
for each, the `IntegrityError` branch of fact-row construction is
unreachable — every to-ingest event finds its dimension id in the cache —
and the pipeline returns `{processed: n}` with `n` the size of the
to-ingest set (the attempted count, independent of how many rows the
conflict-skipping bulk insert actually adds). -/
theorem c9_integrity_unreachable (st : Store) (now : Int) (evs : List RouletteEvent)
    (st1 : Store) (ops1 : List Op) (cache : List (String × Nat))
    (hres : resolveCasinos now
        (uniqueTables (filterEvents (resolveWatermarks st (uniqueTableIds evs)) evs)) st =
      (st1, ops1, .ok cache))
    (hpos : ∀ p ∈ cache, 0 < p.2) :
    (∃ rows, buildFactRows cache now
        (filterEvents (resolveWatermarks st (uniqueTableIds evs)) evs) = .ok rows) ∧
    (processValidated st now evs).result =
      .ok (filterEvents (resolveWatermarks st (uniqueTableIds evs)) evs).length := by
  have hkeys := (resolveCasinos_ok hres).2.2.2.1
  have hcov : ∀ e ∈ filterEvents (resolveWatermarks st (uniqueTableIds evs)) evs,
      ∃ cid, lookupCache cache e.data.table.id = some cid ∧ 0 < cid := by
    intro e he
    have htid : e.data.table.id ∈ cache.map Prod.fst := by
      rw [hkeys]
      exact mem_fst_uniqueTables he
    obtain ⟨cid, hlk, hmem⟩ := lookupCache_of_key htid
    exact ⟨cid, hlk, hpos _ hmem⟩
  obtain ⟨rows, hb⟩ := buildFactRows_total hcov
  refine ⟨⟨rows, hb⟩, ?_⟩
  by_cases hnil : filterEvents (resolveWatermarks st (uniqueTableIds evs)) evs = []
  · rw [processValidated_none hnil, hnil]
    rfl
  · have hlen : ((filterEvents (resolveWatermarks st (uniqueTableIds evs)) evs).length == 0)
        = false := by
      simp only [beq_eq_false_iff_ne, ne_eq, List.length_eq_zero]
      exact hnil
    have hrl : 0 < rows.length := by
      rw [(buildFactRows_ok hb).1]
      cases hT : filterEvents (resolveWatermarks st (uniqueTableIds evs)) evs with
      | nil => exact absurd hT hnil
      | cons a as => simp
    rw [processValidated]
    simp only [hlen, Bool.false_eq_true, if_false, hres, hb, if_pos hrl]

/-- C9 witness: the spec scenario from an empty store. -/
theorem c9_witness :
    (∃ rows, buildFactRows [("204", 1)] 100
        (filterEvents (resolveWatermarks emptyStore (uniqueTableIds batchScenario))
          batchScenario) = .ok rows) ∧
    (processValidated emptyStore 100 batchScenario).result =
      .ok (filterEvents (resolveWatermarks emptyStore (uniqueTableIds batchScenario))
        batchScenario).length :=
  c9_integrity_unreachable emptyStore 100 batchScenario
    { casinos := [{ id := 1, table_id := "204", table_name := "Mega Roulette",
                    created_at := 100 }],
      facts := [], nextCasinoId := 2 }
    [Op.casinoSelect "204" "Mega Roulette", Op.casinoInsert "204" "Mega Roulette"]
    [("204", 1)] (by decide) (by decide)

/-- C10: the external event id persisted in a fact row is the inner
`data.id`, not the envelope id (a fact row has no envelope-id column at
all); two payload elements with different envelope ids but one shared
inner id both count in the processed total while the conflict-skipping
insert stores at most one row for that id. -/
theorem c10_inner_id_persisted :
    (∀ (cache : List (String × Nat)) (now : Int) (evs : List RouletteEvent)
       (rows : List FactRow),
       buildFactRows cache now evs = .ok rows →
       ∀ p ∈ evs.zip rows, p.2.event_id = p.1.data.id) ∧
    (processValidated emptyStore 100 batchSharedInner).result = .ok 2 ∧
    (processValidated emptyStore 100 batchSharedInner).store.facts.length = 1 ∧
    ((processValidated emptyStore 100 batchSharedInner).store.facts.map
      (fun f => f.event_id)) = ["x"] := by
  refine ⟨?_, by decide, by decide, by decide⟩
  intro cache now evs rows h p hp
  exact ((buildFactRows_ok h).2.2 p hp).1

/-- C10 witness: the fact rows built for the shared-inner-id batch carry
the inner id "x". -/
theorem c10_witness :
    buildFactRows [("2", 1)] 100 batchSharedInner =
      .ok [{ event_id := "x", started_at := -30, settled_at := 10, outcome_number := 5,
             outcome_type := "Odd", outcome_color := "Red", casino_id := 1,
             created_at := 100 },
           { event_id := "x", started_at := -20, settled_at := 20, outcome_number := 5,
             outcome_type := "Odd", outcome_color := "Red", casino_id := 1,
             created_at := 100 }] ∧
    (mkEvent "E1" "x" "2" "P" 10 "Resolved",
      ({ event_id := "x", started_at := -30, settled_at := 10, outcome_number := 5,
         outcome_type := "Odd", outcome_color := "Red", casino_id := 1,
         created_at := 100 } : FactRow)).2.event_id =
      (mkEvent "E1" "x" "2" "P" 10 "Resolved").data.id :=
  ⟨by decide,
   c10_inner_id_persisted.1 [("2", 1)] 100 batchSharedInner
     [{ event_id := "x", started_at := -30, settled_at := 10, outcome_number := 5,
        outcome_type := "Odd", outcome_color := "Red", casino_id := 1,
        created_at := 100 },
      { event_id := "x", started_at := -20, settled_at := 20, outcome_number := 5,
        outcome_type := "Odd", outcome_color := "Red", casino_id := 1,
        created_at := 100 }] (by decide)
     (mkEvent "E1" "x" "2" "P" 10 "Resolved",
      { event_id := "x", started_at := -30, settled_at := 10, outcome_number := 5,
        outcome_type := "Odd", outcome_color := "Red", casino_id := 1,
        created_at := 100 }) (by decide)⟩

end Roulette
